import Mathlib

/-!
# Verification of the financial-data normalization and ingestion pipeline

Shallow embedding of the core of the repository:
* `app/parsers/quickbooks_parser.py`  (namespace `QB`)
* `app/parsers/rootfi_parser.py`      (namespace `RF`)
* `app/validators.py`                 (`validate_period_data`)
* `app/services/data_service.py`      (`load_periods`, `load_data_from_sources`)

Python run-time values (the result of `json.load` plus the values the parsers
build) are modelled by `PyVal`; Python floats by `PyNum` (finite values are
idealized as exact rationals; `nan` and signed infinities are explicit
constructors).  Fallible Python code is modelled in `Except PyError`; the
`PyError` constructors mirror the exception classes that the source can raise
(`KeyError`, `TypeError`, `ValueError`, `IndexError`, `AttributeError`, and the
application exceptions of `app/exceptions.py`).  File access and JSON decoding
are outside the embedding: parsers take the decoded document value, and the
coordinator takes the two parsed record lists.
-/

/-- Model of a Python float: an exact rational, `nan`, or a signed infinity. -/
inductive PyNum where
  | finite (q : ℚ)
  | nan
  | inf (pos : Bool)
deriving DecidableEq, Repr

/-- Model of a Python value as produced by `json.load` and by the parsers.
`dict` is an association list (Python dicts hold at most one binding per key;
lists with duplicated keys model the insertion history, later bindings win,
matching `json.load`'s duplicate-key behaviour). -/
inductive PyVal where
  | none
  | bool (b : Bool)
  | num (x : PyNum)
  | str (s : String)
  | list (xs : List PyVal)
  | dict (kvs : List (PyVal × PyVal))
deriving Repr

/-- Python `==` on numbers: `nan` compares unequal to everything (itself included). -/
def PyNum.eqb : PyNum → PyNum → Bool
  | .finite a, .finite b => a == b
  | .inf a, .inf b => a == b
  | _, _ => false

mutual

/-- Python `==`.  Booleans compare equal to the numbers `0`/`1` (Python's
`bool` is a subtype of `int`); containers compare elementwise. -/
def pyEqb : PyVal → PyVal → Bool
  | .none, .none => true
  | .bool a, .bool b => a == b
  | .bool a, .num b => PyNum.eqb (.finite (if a then 1 else 0)) b
  | .num a, .bool b => PyNum.eqb a (.finite (if b then 1 else 0))
  | .num a, .num b => PyNum.eqb a b
  | .str a, .str b => a == b
  | .list as, .list bs => pyEqbList as bs
  | .dict as, .dict bs => pyEqbPairs as bs
  | _, _ => false

def pyEqbList : List PyVal → List PyVal → Bool
  | [], [] => true
  | a :: as, b :: bs => pyEqb a b && pyEqbList as bs
  | _, _ => false

def pyEqbPairs : List (PyVal × PyVal) → List (PyVal × PyVal) → Bool
  | [], [] => true
  | (k, v) :: as, (k2, v2) :: bs => pyEqb k k2 && pyEqb v v2 && pyEqbPairs as bs
  | _, _ => false

end

/-- Python truthiness (`bool(v)`). -/
def pyTruthy : PyVal → Bool
  | .none => false
  | .bool b => b
  | .num (.finite q) => q != 0
  | .num .nan => true
  | .num (.inf _) => true
  | .str s => s != ""
  | .list xs => !xs.isEmpty
  | .dict kvs => !kvs.isEmpty

/-- Truthiness of an optional value (`None` is falsy). -/
def pyTruthyO : Option PyVal → Bool
  | some v => pyTruthy v
  | Option.none => false

/-- Lookup in a Python dict modelled as an association list; with duplicated
keys the *last* binding wins (consistent with replaying the insertions). -/
def dictLookup : List (PyVal × PyVal) → PyVal → Option PyVal
  | [], _ => Option.none
  | p :: rest, k =>
    match dictLookup rest k with
    | some v => some v
    | Option.none => if pyEqb p.1 k then some p.2 else Option.none

/-- `d[k] = v` on a Python dict: replace in place if the key is present
(keeping the original key object and its position), else append. -/
def dictInsert (kvs : List (PyVal × PyVal)) (k v : PyVal) : List (PyVal × PyVal) :=
  if (dictLookup kvs k).isSome then
    kvs.map (fun p => if pyEqb p.1 k then (p.1, v) else p)
  else kvs ++ [(k, v)]

/-- Python `dict.update`: insert every binding of `other` in order. -/
def dictUpdate (kvs other : List (PyVal × PyVal)) : List (PyVal × PyVal) :=
  other.foldl (fun acc p => dictInsert acc p.1 p.2) kvs

/-- Exceptions the modelled code can raise. -/
inductive PyError where
  | keyError (k : String)
  | typeError (msg : String)
  | valueError (msg : String)
  | indexError
  | attributeError (msg : String)
  | dataValidationError (msg : String)
  | dataSourceError (msg : String)
  | dataProcessingError (msg : String)
deriving DecidableEq, Repr

/-- Python subscript `v[k]` with a string key: `KeyError` on a dict missing the
key, `TypeError` on non-dicts (lists and strings reject string indices). -/
def pySubscr (v : PyVal) (k : String) : Except PyError PyVal :=
  match v with
  | .dict kvs =>
    match dictLookup kvs (.str k) with
    | some x => .ok x
    | Option.none => .error (.keyError k)
  | _ => .error (.typeError "value is not subscriptable by a string")

/-- Python `v.get(k, default)`: only dicts have `.get` (`AttributeError` otherwise). -/
def pyGetD (v : PyVal) (k : String) (d : PyVal) : Except PyError PyVal :=
  match v with
  | .dict kvs => .ok ((dictLookup kvs (.str k)).getD d)
  | _ => .error (.attributeError "object has no attribute get")

/-- Whether a nonempty string `needle` occurs inside a character list. -/
def subOccurs (needle : List Char) : List Char → Bool
  | [] => needle.isEmpty
  | c :: cs => needle.isPrefixOf (c :: cs) || subOccurs needle cs

/-- Python `k in v` for a string `k`: key membership on dicts, elementwise
`==` on lists, substring test on strings, `TypeError` otherwise. -/
def pyContainsStr (v : PyVal) (k : String) : Except PyError Bool :=
  match v with
  | .dict kvs => .ok (dictLookup kvs (.str k)).isSome
  | .list xs => .ok (xs.any (fun x => pyEqb x (.str k)))
  | .str s => .ok (subOccurs k.data s.data)
  | _ => .error (.typeError "argument is not iterable")

/-- Python iteration `for x in v`: lists yield elements, strings yield
one-character strings, dicts yield their keys; other values are not iterable. -/
def pyIter (v : PyVal) : Except PyError (List PyVal) :=
  match v with
  | .list xs => .ok xs
  | .str s => .ok (s.data.map (fun c => .str (String.mk [c])))
  | .dict kvs => .ok (kvs.map (fun p => p.1))
  | _ => .error (.typeError "value is not iterable")

/-- Python `v[i]` for a natural index: list/str positional indexing
(`IndexError` out of range), dicts look the number up as a key. -/
def pyIndex (v : PyVal) (i : Nat) : Except PyError PyVal :=
  match v with
  | .list xs =>
    match xs.get? i with
    | some x => .ok x
    | Option.none => .error .indexError
  | .str s =>
    match s.data.get? i with
    | some c => .ok (.str (String.mk [c]))
    | Option.none => .error .indexError
  | .dict kvs =>
    match dictLookup kvs (.num (.finite i)) with
    | some x => .ok x
    | Option.none => .error (.keyError "int key")
  | _ => .error (.typeError "value is not indexable")

/-- Python `v[1:]`: slicing is defined on lists and strings only. -/
def pySliceFrom1 (v : PyVal) : Except PyError (List PyVal) :=
  match v with
  | .list xs => .ok (xs.drop 1)
  | .str s => .ok ((s.data.drop 1).map (fun c => .str (String.mk [c])))
  | _ => .error (.typeError "value cannot be sliced")

/-- Python `float + v` (the only mixed addition the sources perform):
numbers add (`nan`/infinity propagate as in IEEE), booleans count as `0`/`1`,
anything else is a `TypeError`. -/
def PyNum.add : PyNum → PyNum → PyNum
  | .nan, _ => .nan
  | _, .nan => .nan
  | .inf a, .inf b => if a == b then .inf a else .nan
  | .inf a, .finite _ => .inf a
  | .finite _, .inf b => .inf b
  | .finite a, .finite b => .finite (a + b)

def pyAddNum (acc : PyNum) (v : PyVal) : Except PyError PyNum :=
  match v with
  | .num x => .ok (PyNum.add acc x)
  | .bool b => .ok (PyNum.add acc (.finite (if b then 1 else 0)))
  | _ => .error (.typeError "unsupported operand type for +")

/-! ## Model of `float(str)` and of `QuickBooksParser._parse_value` -/

/-- Take a leading run of decimal digits in which single underscores may occur
between digits (Python numeric-literal syntax); returns the digits and the
rest.  An ill-placed underscore is left in the rest, which makes the overall
parse fail because `pyFloatChars` requires the whole input to be consumed. -/
def takeDigits : List Char → List Char × List Char
  | [] => ([], [])
  | [c] => if c.isDigit then ([c], []) else ([], [c])
  | c :: '_' :: d :: cs2 =>
    if c.isDigit then
      if d.isDigit then
        let (ds, rest) := takeDigits (d :: cs2)
        (c :: ds, rest)
      else ([c], '_' :: d :: cs2)
    else ([], c :: '_' :: d :: cs2)
  | c :: c2 :: cs2 =>
    if c.isDigit then
      let (ds, rest) := takeDigits (c2 :: cs2)
      (c :: ds, rest)
    else ([], c :: c2 :: cs2)

def digitsToNat (l : List Char) : Nat :=
  l.foldl (fun acc c => acc * 10 + (c.toNat - '0'.toNat)) 0

/-- Combine integer part, fraction part and decimal exponent into a rational.
The pure-integer case avoids rational division so that concrete values reduce
in the kernel. -/
def buildMantissa (ipart : Nat) (fpart : Nat) (flen : Nat) (eneg : Bool) (emag : Nat) : ℚ :=
  if flen = 0 && emag = 0 then (ipart : ℚ)
  else
    let m : ℚ := (ipart : ℚ) + (fpart : ℚ) / ((10 : ℚ) ^ flen)
    if emag = 0 then m
    else if eneg then m / ((10 : ℚ) ^ emag)
    else m * ((10 : ℚ) ^ emag)

/-- Parse the part of a float literal after the optional sign:
`inf`/`infinity`/`nan` (case-insensitive) or `digits [. digits] [e[sign]digits]`. -/
def pyFloatBody (neg : Bool) (l : List Char) : Option PyNum :=
  let low := l.map Char.toLower
  if low = ['i', 'n', 'f'] || low = ['i', 'n', 'f', 'i', 'n', 'i', 't', 'y'] then
    some (.inf (!neg))
  else if low = ['n', 'a', 'n'] then some .nan
  else
    let (ds1, r1) := takeDigits l
    let (ds2, r3) :=
      match r1 with
      | '.' :: r2 => takeDigits r2
      | _ => ([], r1)
    let noDot := match r1 with | '.' :: _ => false | _ => true
    let r3' := if noDot then r1 else r3
    if ds1.isEmpty && ds2.isEmpty then Option.none
    else
      let finish (eneg : Bool) (emag : Nat) : Option PyNum :=
        let q := buildMantissa (digitsToNat ds1) (digitsToNat ds2) ds2.length eneg emag
        some (.finite (if neg then -q else q))
      match r3' with
      | [] => finish false 0
      | 'e' :: r4 | 'E' :: r4 =>
        let (esign, r5) :=
          match r4 with
          | '+' :: r => (false, r)
          | '-' :: r => (true, r)
          | r => (false, r)
        let (ds3, r6) := takeDigits r5
        if ds3.isEmpty || !r6.isEmpty then Option.none
        else finish esign (digitsToNat ds3)
      | _ => Option.none

/-- Model of Python `float(s)` on a string: strip whitespace, optional sign,
then `inf`/`nan` or a decimal literal; `none` when `float` would raise
`ValueError`. -/
def pyFloatChars (l : List Char) : Option PyNum :=
  let t := (l.dropWhile Char.isWhitespace).reverse.dropWhile Char.isWhitespace |>.reverse
  match t with
  | '+' :: rest => pyFloatBody false rest
  | '-' :: rest => pyFloatBody true rest
  | rest => pyFloatBody false rest

def pyFloatOfString (s : String) : Option PyNum :=
  pyFloatChars s.data

/-- Python builtin `float(v)`: floats pass through (`nan`/`inf` included),
bools count as `0`/`1`, strings are parsed (`ValueError` on failure), and
other types raise `TypeError`. -/
def pyFloat (v : PyVal) : Except PyError PyNum :=
  match v with
  | .num x => .ok x
  | .bool b => .ok (.finite (if b then 1 else 0))
  | .str s =>
    match pyFloatOfString s with
    | some x => .ok x
    | Option.none => .error (.valueError "could not convert string to float")
  | _ => .error (.typeError "float() argument must be a string or a real number")

/-- `s.replace(',', '')`. -/
def stripCommas (s : String) : String :=
  String.mk (s.data.filter (fun c => c ≠ ','))

/-- `QuickBooksParser._parse_value`: falsy values (empty string, `None`, `0`,
…) give `0.0`; strings have commas stripped and are parsed by `float`, with
`ValueError` caught to `0.0`; truthy non-strings hit `AttributeError` on
`.replace`, also caught to `0.0`.  Total by construction. -/
def parse_value (v : PyVal) : PyNum :=
  if !pyTruthy v then .finite 0
  else
    match v with
    | .str s =>
      match pyFloatOfString (stripCommas s) with
      | some x => x
      | Option.none => .finite 0
    | _ => .finite 0

/-! ## Dates and `datetime.strptime(_, "%Y-%m-%d")` -/

structure Date where
  year : Nat
  month : Nat
  day : Nat
deriving DecidableEq, Repr

/-- Strict lexicographic order on dates (`datetime` comparison). -/
def Date.ltb (a b : Date) : Bool :=
  a.year < b.year ||
    (a.year = b.year && (a.month < b.month || (a.month = b.month && a.day < b.day)))

def leapYear (y : Nat) : Bool :=
  y % 4 = 0 && (y % 100 != 0 || y % 400 = 0)

def daysInMonth (y m : Nat) : Nat :=
  if m = 2 then (if leapYear y then 29 else 28)
  else if m = 4 || m = 6 || m = 9 || m = 11 then 30
  else 31

/-- `%Y`: exactly four digits (as in CPython's `_strptime` regex). -/
def parse4Digits : List Char → Option (Nat × List Char)
  | a :: b :: c :: d :: rest =>
    if a.isDigit && b.isDigit && c.isDigit && d.isDigit then
      some (digitsToNat [a, b, c, d], rest)
    else Option.none
  | _ => Option.none

/-- `%m`: the regex `1[0-2]|0[1-9]|[1-9]`, longest alternative first. -/
def parseMonthChars : List Char → Option (Nat × List Char)
  | c1 :: c2 :: rest =>
    if c1 = '1' && ('0' ≤ c2 && c2 ≤ '2') then some (10 + (c2.toNat - '0'.toNat), rest)
    else if c1 = '0' && ('1' ≤ c2 && c2 ≤ '9') then some (c2.toNat - '0'.toNat, rest)
    else if '1' ≤ c1 && c1 ≤ '9' then some (c1.toNat - '0'.toNat, c2 :: rest)
    else Option.none
  | [c1] =>
    if '1' ≤ c1 && c1 ≤ '9' then some (c1.toNat - '0'.toNat, []) else Option.none
  | [] => Option.none

/-- `%d`: the regex `3[01]|[12]\d|0[1-9]|[1-9]`, longest alternative first. -/
def parseDayChars : List Char → Option (Nat × List Char)
  | c1 :: c2 :: rest =>
    if c1 = '3' && ('0' ≤ c2 && c2 ≤ '1') then some (30 + (c2.toNat - '0'.toNat), rest)
    else if ('1' ≤ c1 && c1 ≤ '2') && c2.isDigit then
      some ((c1.toNat - '0'.toNat) * 10 + (c2.toNat - '0'.toNat), rest)
    else if c1 = '0' && ('1' ≤ c2 && c2 ≤ '9') then some (c2.toNat - '0'.toNat, rest)
    else if '1' ≤ c1 && c1 ≤ '9' then some (c1.toNat - '0'.toNat, c2 :: rest)
    else Option.none
  | [c1] =>
    if '1' ≤ c1 && c1 ≤ '9' then some (c1.toNat - '0'.toNat, []) else Option.none
  | [] => Option.none

/-- Parse `"%Y-%m-%d"` and construct the date, with `datetime`'s validity
checks (year at least 1, day within the month). -/
def strptimeYMD (s : String) : Option Date :=
  match parse4Digits s.data with
  | some (y, '-' :: r1) =>
    match parseMonthChars r1 with
    | some (m, '-' :: r2) =>
      match parseDayChars r2 with
      | some (d, []) =>
        if 1 ≤ y && 1 ≤ d && d ≤ daysInMonth y m then some ⟨y, m, d⟩ else Option.none
      | _ => Option.none
    | _ => Option.none
  | _ => Option.none

/-- `datetime.strptime(v, "%Y-%m-%d")`: `TypeError` on non-strings,
`ValueError` when the string does not match the format or the date is invalid. -/
def pyStrptime (v : PyVal) : Except PyError Date :=
  match v with
  | .str s =>
    match strptimeYMD s with
    | some d => .ok d
    | Option.none => .error (.valueError "time data does not match format Y-m-d")
  | _ => .error (.typeError "strptime() argument must be str")

/-! ## QuickBooks parser (`app/parsers/quickbooks_parser.py`) -/

/-- A parser draft record: the Python dict a parser appends to its output
list, modelled as the ordered list of its key/value bindings. -/
abbrev RecD := List (String × PyVal)

/-- Lookup of a key in a draft record (last binding wins, as for `dictLookup`). -/
def recGet : RecD → String → Option PyVal
  | [], _ => Option.none
  | p :: rest, k =>
    match recGet rest k with
    | some v => some v
    | Option.none => if p.1 = k then some p.2 else Option.none

/-- `recGet` with an arbitrary placeholder for the (checked-before-use) absent case. -/
def recGetV (r : RecD) (k : String) : PyVal :=
  (recGet r k).getD .none

def recHas (r : RecD) (k : String) : Bool :=
  (recGet r k).isSome

namespace QB

/-- The accumulating `metrics` dict of `_extract_period_metrics` (its keys are
fixed in the source, so a structure is a faithful model). -/
structure Metrics where
  revenue : PyNum := .finite 0
  cost_of_goods_sold : PyNum := .finite 0
  gross_profit : PyNum := .finite 0
  operating_expenses : PyNum := .finite 0
  net_profit : PyNum := .finite 0
  revenue_breakdown : List (PyVal × PyVal) := []
  expense_breakdown : List (PyVal × PyVal) := []
deriving Repr

/-- `QuickBooksParser._extract_breakdown`: walk `row['Rows']['Row']` one level
deep; each sub-row contributes `col_data[0]`'s label and `col_data[col_index]`'s
parsed value, zero values excluded. -/
def colDataOf (subRow : PyVal) : Except PyError (Option PyVal) := do
  let hasHeader ← pyContainsStr subRow "Header"
  if hasHeader then do
    let h ← pySubscr subRow "Header"
    let cd ← pySubscr h "ColData"
    pure (some cd)
  else do
    let hasCD ← pyContainsStr subRow "ColData"
    if hasCD then do
      let cd ← pySubscr subRow "ColData"
      pure (some cd)
    else pure Option.none

def bdStep (colIndex : Nat) (bd : List (PyVal × PyVal)) (subRow : PyVal) :
    Except PyError (List (PyVal × PyVal)) := do
  let colDataO ← colDataOf subRow
  match colDataO with
  | Option.none => pure bd
  | some colData => do
    let c0 ← pyIndex colData 0
    let accountName ← pyGetD c0 "value" (.str "Unknown")
    let cell ← pyIndex colData colIndex
    let vstr ← pyGetD cell "value" (.str "0.00")
    let value := parse_value vstr
    if PyNum.eqb value (.finite 0) then pure bd
    else pure (dictInsert bd accountName (.num value))

def extract_breakdown (row : PyVal) (colIndex : Nat) :
    Except PyError (List (PyVal × PyVal)) := do
  let hasRows ← pyContainsStr row "Rows"
  if hasRows then
    let rowsV ← pySubscr row "Rows"
    let hasRow ← pyContainsStr rowsV "Row"
    if hasRow then
      let subRowsV ← pySubscr rowsV "Row"
      let subRows ← pyIter subRowsV
      subRows.foldlM (bdStep colIndex) []
    else pure []
  else pure []

/-- `QuickBooksParser._extract_period_metrics`: fold over the rows, reading
each `Summary` row's cell at `colIndex` and dispatching on its `group` tag. -/
def rowStep (colIndex : Nat) (m : Metrics) (row : PyVal) : Except PyError Metrics := do
  let group ← pyGetD row "group" (.str "")
  let hasSummary ← pyContainsStr row "Summary"
  if hasSummary then do
    let summ ← pySubscr row "Summary"
    let colData ← pySubscr summ "ColData"
    let cell ← pyIndex colData colIndex
    let vstr ← pyGetD cell "value" (.str "0.00")
    let value := parse_value vstr
    if pyEqb group (.str "Income") then do
      let bd ← extract_breakdown row colIndex
      pure { m with revenue := value, revenue_breakdown := bd }
    else if pyEqb group (.str "COGS") then
      pure { m with cost_of_goods_sold := value }
    else if pyEqb group (.str "GrossProfit") then
      pure { m with gross_profit := value }
    else if pyEqb group (.str "Expenses") then do
      let bd ← extract_breakdown row colIndex
      pure { m with operating_expenses := value, expense_breakdown := bd }
    else if pyEqb group (.str "NetIncome") then
      pure { m with net_profit := value }
    else pure m
  else pure m

def extract_period_metrics (rows : PyVal) (colIndex : Nat) : Except PyError Metrics := do
  let rowList ← pyIter rows
  rowList.foldlM (rowStep colIndex) {}

/-- The draft dict appended for one month column (dict-literal key order of the
source). -/
def metricsToRec (sd ed : PyVal) (m : Metrics) : RecD :=
  [("period_start", sd), ("period_end", ed), ("source", .str "quickbooks"),
   ("revenue", .num m.revenue), ("cost_of_goods_sold", .num m.cost_of_goods_sold),
   ("gross_profit", .num m.gross_profit), ("operating_expenses", .num m.operating_expenses),
   ("net_profit", .num m.net_profit),
   ("revenue_breakdown", .dict m.revenue_breakdown),
   ("expense_breakdown", .dict m.expense_breakdown)]

/-- The metadata scan of `_extract_monthly_data`: the loop over
`col.get('MetaData', [])` recording the last `StartDate`/`EndDate` values. -/
def colDates (metadata : List PyVal) : Except PyError (Option PyVal × Option PyVal) :=
  metadata.foldlM (fun sd_ed meta => do
    let nm ← pySubscr meta "Name"
    if pyEqb nm (.str "StartDate") then do
      let v ← pySubscr meta "Value"
      pure (some v, sd_ed.2)
    else if pyEqb nm (.str "EndDate") then do
      let v ← pySubscr meta "Value"
      pure (sd_ed.1, some v)
    else pure sd_ed) (Option.none, Option.none)

/-- The body of the column loop of `_extract_monthly_data`: `none` models
`continue` (a `Total` column, or missing/falsy start or end date). -/
def process_column (col : PyVal) (idx : Nat) (rows : PyVal) :
    Except PyError (Option RecD) := do
  let title ← pyGetD col "ColTitle" (.str "")
  if pyEqb title (.str "Total") then pure Option.none
  else do
    let mdv ← pyGetD col "MetaData" (.list [])
    let metadata ← pyIter mdv
    let (sd, ed) ← colDates metadata
    if !pyTruthyO sd || !pyTruthyO ed then pure Option.none
    else do
      let m ← extract_period_metrics rows (idx + 1)
      pure (some (metricsToRec ((sd).getD .none) ((ed).getD .none) m))

/-- The envelope resolution of `_extract_monthly_data`:
`data['data']['Columns']['Column']` and `data['data']['Rows']['Row']`, in
source order. -/
def envelope (data : PyVal) : Except PyError (PyVal × PyVal) := do
  let d ← pySubscr data "data"
  let colsSec ← pySubscr d "Columns"
  let colsV ← pySubscr colsSec "Column"
  let rowsSec ← pySubscr d "Rows"
  let rowsV ← pySubscr rowsSec "Row"
  pure (colsV, rowsV)

/-- One `enumerate` iteration of the column loop: the index advances whether
or not the column was skipped. -/
def colStep (rows : PyVal) (st : Nat × List RecD) (col : PyVal) :
    Except PyError (Nat × List RecD) := do
  match ← process_column col st.1 rows with
  | some r => pure (st.1 + 1, st.2 ++ [r])
  | Option.none => pure (st.1 + 1, st.2)

/-- `QuickBooksParser._extract_monthly_data`: resolve the envelope, skip the
first (label) column, then run the column loop. -/
def extract_monthly_data (data : PyVal) : Except PyError (List RecD) := do
  let (colsV, rowsV) ← envelope data
  let monthCols ← pySliceFrom1 colsV
  let st ← monthCols.foldlM (colStep rowsV) ((0 : Nat), ([] : List RecD))
  pure st.2

/-- `QuickBooksParser.parse_file` after a successful `json.load`: any exception
from the extraction is wrapped in the application's source error. -/
def parse_quickbooks (data : PyVal) : Except PyError (List RecD) :=
  match extract_monthly_data data with
  | .ok ps => .ok ps
  | .error _ => .error (.dataSourceError "Failed to parse QuickBooks data")

end QB

/-! ## Rootfi parser (`app/parsers/rootfi_parser.py`) -/

theorem dictLookup_sizeOf {kvs : List (PyVal × PyVal)} {k v : PyVal}
    (h : dictLookup kvs k = some v) : sizeOf v < sizeOf kvs := by
  induction kvs with
  | nil => simp [dictLookup] at h
  | cons p rest ih =>
    simp only [dictLookup] at h
    cases hr : dictLookup rest k with
    | some w =>
      rw [hr] at h
      cases h
      have := ih hr
      simp only [List.cons.sizeOf_spec]
      omega
    | none =>
      rw [hr] at h
      by_cases hp : pyEqb p.1 k = true
      · simp [hp] at h
        subst h
        rcases p with ⟨pk, pv⟩
        simp only [List.cons.sizeOf_spec, Prod.mk.sizeOf_spec]
        omega
      · simp [hp] at h

namespace RF

/-- `RootfiParser._sum_line_items`: fold `total += item.get('value', 0.0)`
over the items (no recursion into `line_items`).  Iterating a non-list and
`.get` on non-dict items fault exactly as in Python (string iteration yields
one-character strings which, like dict keys — always hashable scalars in
Python — have no `.get`). -/
def sum_line_items (v : PyVal) : Except PyError PyNum := do
  let items ← pyIter v
  items.foldlM (fun acc item => do
    let vv ← pyGetD item "value" (.num (.finite 0))
    pyAddNum acc vv) (PyNum.finite 0)

/-- The loop of `RootfiParser._extract_breakdown` over an item list, carrying
the accumulated `breakdown` dict.  Each dict item inserts its nonzero
`value` under its `name`, then a truthy `line_items` list is flattened
recursively and merged with `dict.update` (so deeper/later names overwrite).
A truthy non-list `line_items` faults like Python: iterating a nonempty
string yields one-character strings, and iterating a nonempty dict yields its
keys, which in Python are always hashable scalars; either way the first item
has no `.get`, hence `AttributeError`; non-iterables raise `TypeError`. -/
def extract_breakdown_items : List (PyVal × PyVal) → List PyVal →
    Except PyError (List (PyVal × PyVal))
  | acc, [] => .ok acc
  | acc, item :: rest =>
    match item with
    | .dict kvs =>
      let name := (dictLookup kvs (.str "name")).getD (.str "Unknown")
      let value := (dictLookup kvs (.str "value")).getD (.num (.finite 0))
      let acc1 := if pyEqb value (.num (.finite 0)) then acc else dictInsert acc name value
      match h : dictLookup kvs (.str "line_items") with
      | some li =>
        if pyTruthy li then
          match li with
          | .list xs => do
            let sub ← extract_breakdown_items [] xs
            extract_breakdown_items (dictUpdate acc1 sub) rest
          | .str _ => .error (.attributeError "str object has no attribute get")
          | .dict _ => .error (.attributeError "object has no attribute get")
          | _ => .error (.typeError "value is not iterable")
        else extract_breakdown_items acc1 rest
      | Option.none => extract_breakdown_items acc1 rest
    | _ => .error (.attributeError "object has no attribute get")
termination_by _ items => sizeOf items
decreasing_by
  all_goals simp_wf
  · have h1 : sizeOf (PyVal.list xs) < sizeOf kvs := dictLookup_sizeOf h
    simp only [PyVal.list.sizeOf_spec] at h1
    omega

/-- `RootfiParser._extract_breakdown` on an arbitrary argument (the source
calls it on `record.get(..., [])`). -/
def extract_breakdown (v : PyVal) : Except PyError (List (PyVal × PyVal)) :=
  match v with
  | .list xs => extract_breakdown_items [] xs
  | .str s => if s.isEmpty then .ok [] else .error (.attributeError "str object has no attribute get")
  | .dict kvs => if kvs.isEmpty then .ok [] else .error (.attributeError "object has no attribute get")
  | _ => .error (.typeError "value is not iterable")

/-- The body of the record loop of `RootfiParser._transform_data`: the
`period_data` dict literal, with key/value evaluation in source order. -/
def transform_record (record : PyVal) : Except PyError RecD := do
  let ps ← pySubscr record "period_start"
  let pe ← pySubscr record "period_end"
  let rev ← sum_line_items (← pyGetD record "revenue" (.list []))
  let cogs ← sum_line_items (← pyGetD record "cost_of_goods_sold" (.list []))
  let gp ← pyGetD record "gross_profit" (.num (.finite 0))
  let opex ← sum_line_items (← pyGetD record "operating_expenses" (.list []))
  let op ← pyGetD record "operating_profit" (.num (.finite 0))
  let nor ← sum_line_items (← pyGetD record "non_operating_revenue" (.list []))
  let noe ← sum_line_items (← pyGetD record "non_operating_expenses" (.list []))
  let np ← pyGetD record "net_profit" (.num (.finite 0))
  let rb ← extract_breakdown (← pyGetD record "revenue" (.list []))
  let eb ← extract_breakdown (← pyGetD record "operating_expenses" (.list []))
  pure [("period_start", ps), ("period_end", pe), ("source", .str "rootfi"),
        ("revenue", .num rev), ("cost_of_goods_sold", .num cogs), ("gross_profit", gp),
        ("operating_expenses", .num opex), ("operating_profit", op),
        ("non_operating_revenue", .num nor), ("non_operating_expenses", .num noe),
        ("net_profit", np), ("revenue_breakdown", .dict rb), ("expense_breakdown", .dict eb)]

/-- `RootfiParser._transform_data`: one draft per record of `data['data']`. -/
def trStep (acc : List RecD) (record : PyVal) : Except PyError (List RecD) := do
  let r ← transform_record record
  pure (acc ++ [r])

def transform_data (records : PyVal) : Except PyError (List RecD) := do
  let rs ← pyIter records
  rs.foldlM trStep []

/-- `RootfiParser.parse_file` after a successful `json.load`: resolves
`data['data']` and transforms it, wrapping any exception in the application's
source error. -/
def parse_rootfi (data : PyVal) : Except PyError (List RecD) :=
  match (do transform_data (← pySubscr data "data") : Except PyError (List RecD)) with
  | .ok ps => .ok ps
  | .error _ => .error (.dataSourceError "Failed to parse Rootfi data")

end RF

/-! ## Validator (`app/validators.py`, `FinancialDataValidator.validate_period_data`) -/

def requiredFields : List String := ["period_start", "period_end", "source"]

/-- The `numeric_fields` list of `validate_period_data` (note: the source
checks exactly these five, not all eight metric columns). -/
def numericFields : List String :=
  ["revenue", "cost_of_goods_sold", "gross_profit", "operating_expenses", "net_profit"]

def checkRequired (data : RecD) : List String → Except PyError Unit
  | [] => .ok ()
  | f :: fs =>
    if recHas data f then checkRequired data fs
    else .error (.dataValidationError ("Missing required field: " ++ f))

/-- The `try` block around the date checks: parse both dates and compare.
`DataValidationError` is *not* a `ValueError` subclass (`app/exceptions.py`
derives it from `Exception`), so the inequality failure passes the
`except ValueError` clause untouched. -/
def dateCheck (data : RecD) : Except PyError Unit := do
  let sd ← pyStrptime (recGetV data "period_start")
  let ed ← pyStrptime (recGetV data "period_end")
  if !Date.ltb sd ed then
    .error (.dataValidationError "period_start must be before period_end")
  else .ok ()

def checkNumeric (data : RecD) : List String → Except PyError Unit
  | [] => .ok ()
  | f :: fs =>
    if recHas data f then
      match pyFloat (recGetV data f) with
      | .ok _ => checkNumeric data fs
      | .error _ => .error (.dataValidationError ("Invalid numeric value for " ++ f))
    else checkNumeric data fs

/-- `FinancialDataValidator.validate_period_data`. -/
def validate_period_data (data : RecD) : Except PyError Bool := do
  checkRequired data requiredFields
  (match dateCheck data with
   | .error (.valueError m) => .error (.dataValidationError ("Invalid date format: " ++ m))
   | r => r)
  let src := recGetV data "source"
  if !(pyEqb src (.str "quickbooks") || pyEqb src (.str "rootfi")) then
    .error (.dataValidationError "Invalid source")
  else do
    checkNumeric data numericFields
    pure true

/-! ## Coordinator (`app/services/data_service.py`) -/

/-- A persisted `FinancialPeriod` row (`app/models.py`).  The surrogate
autoincrement `id` is not part of the canonical state and is not modelled;
column defaults are those of the model. -/
structure FinancialPeriod where
  period_start : Date
  period_end : Date
  source : PyVal
  revenue : PyVal := .num (.finite 0)
  cost_of_goods_sold : PyVal := .num (.finite 0)
  gross_profit : PyVal := .num (.finite 0)
  operating_expenses : PyVal := .num (.finite 0)
  operating_profit : PyVal := .num (.finite 0)
  non_operating_revenue : PyVal := .num (.finite 0)
  non_operating_expenses : PyVal := .num (.finite 0)
  net_profit : PyVal := .num (.finite 0)
  revenue_breakdown : PyVal := .none
  expense_breakdown : PyVal := .none
  currency : PyVal := .str "USD"
  raw_data : PyVal := .none
deriving Repr

/-- `setattr(existing, key, value)` for the non-identity columns; keys that
are not columns only create transient Python attributes, which never reach
the persisted state, hence are a no-op on the modelled row. -/
def setField (x : FinancialPeriod) (k : String) (v : PyVal) : FinancialPeriod :=
  if k = "revenue" then { x with revenue := v }
  else if k = "cost_of_goods_sold" then { x with cost_of_goods_sold := v }
  else if k = "gross_profit" then { x with gross_profit := v }
  else if k = "operating_expenses" then { x with operating_expenses := v }
  else if k = "operating_profit" then { x with operating_profit := v }
  else if k = "non_operating_revenue" then { x with non_operating_revenue := v }
  else if k = "non_operating_expenses" then { x with non_operating_expenses := v }
  else if k = "net_profit" then { x with net_profit := v }
  else if k = "revenue_breakdown" then { x with revenue_breakdown := v }
  else if k = "expense_breakdown" then { x with expense_breakdown := v }
  else if k = "currency" then { x with currency := v }
  else if k = "raw_data" then { x with raw_data := v }
  else x

def identityKeys : List String := ["period_start", "period_end", "source"]

/-- The update branch of `_load_periods`: `setattr` every item of the draft
dict except the identity triple. -/
def applyRec (x : FinancialPeriod) (r : RecD) : FinancialPeriod :=
  r.foldl (fun acc p => if identityKeys.contains p.1 then acc else setField acc p.1 p.2) x

/-- The draft dict as the Python object stored in the `raw_data` JSON column. -/
def recToPy (r : RecD) : PyVal :=
  .dict (r.map (fun p => (.str p.1, p.2)))

/-- The insert branch of `_load_periods`: construct a fresh `FinancialPeriod`
from the draft with `dict.get` defaults, `raw_data` set to the whole draft,
and the model's `currency` column default. -/
def mkInsert (r : RecD) (ps pe : Date) (srcv : PyVal) : FinancialPeriod :=
  { period_start := ps, period_end := pe, source := srcv,
    revenue := (recGet r "revenue").getD (.num (.finite 0)),
    cost_of_goods_sold := (recGet r "cost_of_goods_sold").getD (.num (.finite 0)),
    gross_profit := (recGet r "gross_profit").getD (.num (.finite 0)),
    operating_expenses := (recGet r "operating_expenses").getD (.num (.finite 0)),
    operating_profit := (recGet r "operating_profit").getD (.num (.finite 0)),
    non_operating_revenue := (recGet r "non_operating_revenue").getD (.num (.finite 0)),
    non_operating_expenses := (recGet r "non_operating_expenses").getD (.num (.finite 0)),
    net_profit := (recGet r "net_profit").getD (.num (.finite 0)),
    revenue_breakdown := (recGet r "revenue_breakdown").getD .none,
    expense_breakdown := (recGet r "expense_breakdown").getD .none,
    currency := .str "USD",
    raw_data := recToPy r }

/-- The identity filter of the existence query: stored dates equal the parsed
draft dates and the stored source equals the draft's source value. -/
def idMatch (x : FinancialPeriod) (ps pe : Date) (srcv : PyVal) : Bool :=
  x.period_start == ps && x.period_end == pe && pyEqb x.source srcv

/-- `.first()` on the identity query followed by the update branch: rewrite
the first matching row in place. -/
def updFirst : List FinancialPeriod → Date → Date → PyVal → RecD → List FinancialPeriod
  | [], _, _, _, _ => []
  | x :: xs, ps, pe, srcv, r =>
    if idMatch x ps pe srcv then applyRec x r :: xs
    else x :: updFirst xs ps pe srcv r

/-- `r[k]` on a draft dict (`KeyError` when absent). -/
def recSubscr (r : RecD) (k : String) : Except PyError PyVal :=
  match recGet r k with
  | some v => .ok v
  | Option.none => .error (.keyError k)

/-- The identity resolution of the loop body of `_load_periods`: the draft's
`period_start`/`period_end` subscripts, parsed by `strptime`, and its `source`
subscript (the values the existence query filters on). -/
def recIdentity (r : RecD) : Except PyError (Date × Date × PyVal) := do
  let psv ← recSubscr r "period_start"
  let ps ← pyStrptime psv
  let pev ← recSubscr r "period_end"
  let pe ← pyStrptime pev
  let srcv ← recSubscr r "source"
  pure (ps, pe, srcv)

/-- `DataService._load_periods`: per record, validate (any failure skips the
record), re-parse the identity dates, then update the existing row or insert
a new one; only inserts increment the returned count. -/
def load_periods : List FinancialPeriod → Nat → List RecD →
    Except PyError (List FinancialPeriod × Nat)
  | db, count, [] => .ok (db, count)
  | db, count, r :: rs =>
    match validate_period_data r with
    | .error _ => load_periods db count rs
    | .ok _ =>
      match recIdentity r with
      | .error e => .error e
      | .ok (ps, pe, srcv) =>
        if (db.any (fun x => idMatch x ps pe srcv)) then
          load_periods (updFirst db ps pe srcv r) count rs
        else
          load_periods (db ++ [mkInsert r ps pe srcv]) (count + 1) rs

/-- `DataService.load_data_from_sources` after both parsers succeeded: load
each source's drafts in turn and return the count summary dict (modelled as
its ordered key/value list); any exception in the batch is wrapped as the
application's processing error. -/
def load_data_from_sources (db : List FinancialPeriod) (qbData rootfiData : List RecD) :
    Except PyError (List FinancialPeriod × List (String × Nat)) :=
  match (do
    let (db1, qbCount) ← load_periods db 0 qbData
    let (db2, rfCount) ← load_periods db1 0 rootfiData
    pure (db2, [("quickbooks_records", qbCount), ("rootfi_records", rfCount),
                ("total_records", qbCount + rfCount)]) :
      Except PyError (List FinancialPeriod × List (String × Nat))) with
  | .ok x => .ok x
  | .error _ => .error (.dataProcessingError "Failed to load data")

/-! ## Basic lemmas -/

theorem pyEqb_str_iff {v : PyVal} {s : String} : pyEqb v (.str s) = true ↔ v = .str s := by
  cases v <;> simp [pyEqb]

/-! ## C10 -/

/-- C10: `QuickBooksParser._parse_value` is total on strings: the empty
string yields `0.0`, otherwise commas are stripped, the result is parsed by
`float`, and a parse failure silently yields `0.0` (no exception escapes).
Totality is by construction (`parse_value` is a Lean function); the
characterization plus the concrete evaluations state the claim. -/
theorem C10_parse_value_total_on_strings :
    (∀ s : String, parse_value (.str s) =
      match pyFloatOfString (stripCommas s) with
      | some x => x
      | Option.none => PyNum.finite 0) ∧
    parse_value (.str "") = .finite 0 ∧
    parse_value (.str "1,000") = .finite 1000 ∧
    parse_value (.str "abc") = .finite 0 := by
  refine ⟨?_, rfl, rfl, rfl⟩
  intro s
  by_cases h : s = ""
  · subst h; rfl
  · simp [parse_value, pyTruthy, bne, h]

/-! ## C7 -/

def C7recNaN : RecD :=
  [("period_start", .str "2024-01-01"), ("period_end", .str "2024-02-01"),
   ("source", .str "quickbooks"), ("revenue", .str "nan")]

def C7recOP : RecD :=
  [("period_start", .str "2024-01-01"), ("period_end", .str "2024-02-01"),
   ("source", .str "quickbooks"), ("operating_profit", .str "not a number")]

/-- C7 counterexample: the validator accepts a record whose `revenue` is the
string `"nan"` (Python `float("nan")` succeeds, and no finiteness check is
performed), and accepts a record whose `operating_profit` is not numeric at
all (`operating_profit`, `non_operating_revenue` and `non_operating_expenses`
are not in the validator's `numeric_fields` list).  The claim says both
records must be rejected with `DataValidationError`. -/
theorem C7_counterexample :
    validate_period_data C7recNaN = .ok true ∧
    pyFloat (.str "nan") = .ok PyNum.nan ∧
    validate_period_data C7recOP = .ok true ∧
    recHas C7recOP "operating_profit" = true :=
  ⟨rfl, rfl, rfl, rfl⟩

theorem checkNumeric_ok_iff (data : RecD) (fs : List String) :
    checkNumeric data fs = .ok () ↔
      ∀ f ∈ fs, recHas data f = true → (pyFloat (recGetV data f)).isOk = true := by
  induction fs with
  | nil => simp [checkNumeric]
  | cons f fs ih =>
    by_cases hf : recHas data f
    · cases hpf : pyFloat (recGetV data f) with
      | ok x =>
        simp [checkNumeric, hf, hpf, ih, List.forall_mem_cons, Except.isOk, Except.toBool]
      | error e =>
        simp [checkNumeric, hf, hpf, List.forall_mem_cons, Except.isOk, Except.toBool]
    · simp [checkNumeric, hf, ih, List.forall_mem_cons]

/-- C7 amended: for a record passing the field-presence, date and source
checks, validation succeeds iff every *checked* metric field present in the
record (exactly `revenue`, `cost_of_goods_sold`, `gross_profit`,
`operating_expenses`, `net_profit` — not the other three metric columns)
coerces to a float; `float` coercion does not test finiteness, so `nan` and
infinite values are accepted. -/
theorem C7_amended_numeric_validation (data : RecD)
    (hreq : checkRequired data requiredFields = .ok ())
    (hdate : dateCheck data = .ok ())
    (hsrc : (pyEqb (recGetV data "source") (.str "quickbooks") ||
             pyEqb (recGetV data "source") (.str "rootfi")) = true) :
    validate_period_data data = .ok true ↔
      ∀ f ∈ numericFields, recHas data f = true →
        (pyFloat (recGetV data f)).isOk = true := by
  rw [← checkNumeric_ok_iff]
  simp only [validate_period_data, hreq, hdate, hsrc, bind, Except.bind]
  simp only [Bool.not_true, if_false, Bool.false_eq_true]
  cases hcn : checkNumeric data numericFields with
  | ok u => cases u; simp [pure, Except.pure]
  | error e => simp

def C7goodRec : RecD :=
  [("period_start", .str "2024-01-01"), ("period_end", .str "2024-02-01"),
   ("source", .str "rootfi"), ("revenue", .num (.finite 5))]

theorem C7_amended_numeric_validation_witness :
    validate_period_data C7goodRec = .ok true ↔
      ∀ f ∈ numericFields, recHas C7goodRec f = true →
        (pyFloat (recGetV C7goodRec f)).isOk = true :=
  C7_amended_numeric_validation C7goodRec rfl rfl rfl

/-! ## C9 -/

theorem updFirst_length (db : List FinancialPeriod) (ps pe : Date) (srcv : PyVal) (r : RecD) :
    (updFirst db ps pe srcv r).length = db.length := by
  induction db with
  | nil => rfl
  | cons x xs ih =>
    simp only [updFirst]
    by_cases hm : idMatch x ps pe srcv
    · simp [hm]
    · simp [hm, ih]

theorem load_periods_count (rs : List RecD) :
    ∀ db c db' c', load_periods db c rs = .ok (db', c') → c' + db.length = c + db'.length := by
  induction rs with
  | nil =>
    intro db c db' c' h
    simp only [load_periods] at h
    cases h
    omega
  | cons r rs ih =>
    intro db c db' c' h
    simp only [load_periods] at h
    split at h
    · exact ih _ _ _ _ h
    · split at h
      · cases h
      · split at h
        · have h2 := ih _ _ _ _ h
          rw [updFirst_length] at h2
          omega
        · have h2 := ih _ _ _ _ h
          simp only [List.length_append, List.length_cons, List.length_nil] at h2
          omega

def C9doc : RecD :=
  [("period_start", .str "2024-01-01"), ("period_end", .str "2024-02-01"),
   ("source", .str "quickbooks"), ("revenue", .num (.finite 9))]

/-- C9 counterexample: the summary dict returned by a successful load uses the
keys `quickbooks_records`/`rootfi_records`/`total_records`, not the claimed
`quickbooks_count`/`rootfi_count`/`total_count`: on a concrete successful load
the returned mapping has no `quickbooks_count` (or `total_count`) key. -/
theorem C9_counterexample :
    load_data_from_sources [] [C9doc] [] =
      .ok ([mkInsert C9doc ⟨2024, 1, 1⟩ ⟨2024, 2, 1⟩ (.str "quickbooks")],
           [("quickbooks_records", 1), ("rootfi_records", 0), ("total_records", 1)]) ∧
    ([("quickbooks_records", 1), ("rootfi_records", 0),
      ("total_records", 1)] : List (String × Nat)).lookup "quickbooks_count" = Option.none ∧
    ([("quickbooks_records", 1), ("rootfi_records", 0),
      ("total_records", 1)] : List (String × Nat)).lookup "total_count" = Option.none :=
  ⟨rfl, rfl, rfl⟩

/-- C9 amended: a successful `load_data_from_sources` returns the three-field
summary keyed `quickbooks_records`/`rootfi_records`/`total_records`, where
each per-source figure counts exactly the records newly added to the store for
that source (updates leave the store length unchanged and are not counted),
and the total equals the sum of the two.  -/
theorem C9_amended_load_summary (db : List FinancialPeriod) (qb rf : List RecD)
    (dbf : List FinancialPeriod) (summary : List (String × Nat))
    (h : load_data_from_sources db qb rf = .ok (dbf, summary)) :
    ∃ db1 n1 n2,
      load_periods db 0 qb = .ok (db1, n1) ∧
      load_periods db1 0 rf = .ok (dbf, n2) ∧
      summary = [("quickbooks_records", n1), ("rootfi_records", n2),
                 ("total_records", n1 + n2)] ∧
      n1 + db.length = db1.length ∧ n2 + db1.length = dbf.length := by
  simp only [load_data_from_sources, bind, Except.bind] at h
  split at h
  · rename_i x hmatch
    split at hmatch
    · cases hmatch
    · rename_i v h1
      split at hmatch
      · cases hmatch
      · rename_i v2 h2
        simp only [pure, Except.pure, Except.ok.injEq] at hmatch
        subst hmatch
        cases h
        refine ⟨v.1, v.2, v2.2, ?_, ?_, rfl, ?_, ?_⟩
        · rw [← h1]
        · rw [← h2]
        · have := load_periods_count qb db 0 v.1 v.2 (by rw [← h1])
          omega
        · have := load_periods_count rf v.1 0 v2.1 v2.2 (by rw [← h2])
          omega
  · cases h

theorem C9_amended_load_summary_witness :
    ∃ db1 n1 n2,
      load_periods [] 0 [C9doc] = .ok (db1, n1) ∧
      load_periods db1 0 [] = .ok
        ([mkInsert C9doc ⟨2024, 1, 1⟩ ⟨2024, 2, 1⟩ (.str "quickbooks")], n2) ∧
      ([("quickbooks_records", 1), ("rootfi_records", 0), ("total_records", 1)] :
          List (String × Nat)) =
        [("quickbooks_records", n1), ("rootfi_records", n2), ("total_records", n1 + n2)] ∧
      n1 + ([] : List FinancialPeriod).length = db1.length ∧
      n2 + db1.length =
        [mkInsert C9doc ⟨2024, 1, 1⟩ ⟨2024, 2, 1⟩ (.str "quickbooks")].length :=
  C9_amended_load_summary [] [C9doc] []
    [mkInsert C9doc ⟨2024, 1, 1⟩ ⟨2024, 2, 1⟩ (.str "quickbooks")]
    [("quickbooks_records", 1), ("rootfi_records", 0), ("total_records", 1)] rfl

/-! ## C5 -/

theorem load_periods_skip {r : RecD} {e : PyError}
    (he : validate_period_data r = .error e) (rs1 : List RecD) :
    ∀ db c rs2, load_periods db c (rs1 ++ r :: rs2) = load_periods db c (rs1 ++ rs2) := by
  induction rs1 with
  | nil =>
    intro db c rs2
    simp only [List.nil_append, load_periods, he]
  | cons x xs ih =>
    intro db c rs2
    simp only [List.cons_append, load_periods]
    cases hv : validate_period_data x with
    | error e2 => simp only [hv]; exact ih db c rs2
    | ok b =>
      simp only [hv]
      cases hd : recIdentity x with
      | error e2 => simp only [hd]
      | ok t =>
        obtain ⟨ps, pe, srcv⟩ := t
        simp only [hd]
        by_cases hex : (db.any fun y => idMatch y ps pe srcv) = true
        · simp only [hex, if_true]
          exact ih _ c rs2
        · simp only [hex, if_false]
          exact ih _ (c + 1) rs2

/-- C5: a record whose `period_start` parses to a date not strictly before its
`period_end` (under the fixed `%Y-%m-%d` parse) makes the validator raise
`DataValidationError` (either at the date check, or earlier at the
required-field check when `source` is absent — still a `DataValidationError`),
and the coordinator's load skips exactly that record: the run over any batch
containing it equals the run over the batch with it removed, so it is never
inserted into or updated in the store. -/
theorem C5_reversed_period_rejected (data : RecD) (sps spe : String) (d1 d2 : Date)
    (hs : recGet data "period_start" = some (.str sps))
    (he : recGet data "period_end" = some (.str spe))
    (hd1 : pyStrptime (.str sps) = .ok d1)
    (hd2 : pyStrptime (.str spe) = .ok d2)
    (hge : Date.ltb d1 d2 = false) :
    (∃ msg, validate_period_data data = .error (.dataValidationError msg)) ∧
    ∀ db c rs1 rs2,
      load_periods db c (rs1 ++ data :: rs2) = load_periods db c (rs1 ++ rs2) := by
  have hhs : recHas data "period_start" = true := by simp [recHas, hs]
  have hhe : recHas data "period_end" = true := by simp [recHas, he]
  have hdc : dateCheck data = .error (.dataValidationError "period_start must be before period_end") := by
    simp only [dateCheck, recGetV, hs, he, Option.getD_some, hd1, hd2, bind, Except.bind, hge,
      Bool.not_false, if_true]
  have hval : ∃ msg, validate_period_data data = .error (.dataValidationError msg) := by
    by_cases hsrc : recHas data "source" = true
    · refine ⟨"period_start must be before period_end", ?_⟩
      simp only [validate_period_data, checkRequired, requiredFields, hhs, hhe, hsrc, if_true,
        hdc, bind, Except.bind]
    · refine ⟨"Missing required field: source", ?_⟩
      simp only [validate_period_data, checkRequired, requiredFields, hhs, hhe, if_true, bind,
        Except.bind]
      simp [hsrc]
  obtain ⟨msg, hmsg⟩ := hval
  exact ⟨⟨msg, hmsg⟩, fun db c rs1 rs2 => load_periods_skip hmsg rs1 db c rs2⟩

def C5badRec : RecD :=
  [("period_start", .str "2024-03-01"), ("period_end", .str "2024-01-31"),
   ("source", .str "rootfi"), ("revenue", .num (.finite 3))]

theorem C5_reversed_period_rejected_witness :
    (∃ msg, validate_period_data C5badRec = .error (.dataValidationError msg)) ∧
    ∀ db c rs1 rs2,
      load_periods db c (rs1 ++ C5badRec :: rs2) = load_periods db c (rs1 ++ rs2) :=
  C5_reversed_period_rejected C5badRec "2024-03-01" "2024-01-31"
    ⟨2024, 3, 1⟩ ⟨2024, 1, 31⟩ rfl rfl rfl rfl rfl

/-! ## C1 and C2 -/

/-- Specification-side column predicate (after the correction): a month column
yields a draft exactly when its title is not `"Total"` and the metadata scan
produces Python-truthy `StartDate` and `EndDate` values (in particular an
entry present with an empty-string `Value` does not count). -/
def QB.col_qualifies (col : PyVal) : Bool :=
  match (do
    let title ← pyGetD col "ColTitle" (.str "")
    if pyEqb title (.str "Total") then pure false
    else do
      let mdv ← pyGetD col "MetaData" (.list [])
      let metadata ← pyIter mdv
      let (sd, ed) ← QB.colDates metadata
      pure (pyTruthyO sd && pyTruthyO ed) : Except PyError Bool) with
  | .ok b => b
  | .error _ => false

theorem QB.process_column_qualifies {col : PyVal} {idx : Nat} {rows : PyVal} {o : Option RecD}
    (h : QB.process_column col idx rows = .ok o) :
    QB.col_qualifies col = o.isSome := by
  unfold QB.process_column at h
  unfold QB.col_qualifies
  simp only [bind, Except.bind] at h ⊢
  cases ht : pyGetD col "ColTitle" (.str "") with
  | error e => rw [ht] at h; cases h
  | ok title =>
    rw [ht] at h
    simp only at h ⊢
    by_cases htot : pyEqb title (.str "Total") = true
    · simp only [htot, if_true] at h ⊢
      simp only [pure, Except.pure] at h
      cases h
      rfl
    · simp only [eq_false_of_ne_true htot, if_false] at h ⊢
      cases hm : pyGetD col "MetaData" (.list []) with
      | error e => rw [hm] at h; cases h
      | ok mdv =>
        rw [hm] at h
        simp only at h ⊢
        cases hit : pyIter mdv with
        | error e => rw [hit] at h; cases h
        | ok metadata =>
          rw [hit] at h
          simp only at h ⊢
          cases hcd : QB.colDates metadata with
          | error e => rw [hcd] at h; cases h
          | ok sde =>
            rw [hcd] at h
            obtain ⟨sd, ed⟩ := sde
            simp only at h ⊢
            by_cases hsd : (!pyTruthyO sd || !pyTruthyO ed) = true
            · simp only [hsd, if_true, pure, Except.pure] at h
              cases h
              simp only [Option.isSome_none]
              simp only [Bool.or_eq_true, Bool.not_eq_true'] at hsd
              rcases hsd with hh | hh <;> simp [hh, pure, Except.pure]
            · simp only [hsd, if_false] at h
              cases hpm : QB.extract_period_metrics rows (idx + 1) with
              | error e => rw [hpm] at h; cases h
              | ok m =>
                rw [hpm] at h
                simp only [pure, Except.pure] at h
                cases h
                simp only [Option.isSome_some]
                simp only [Bool.or_eq_true, Bool.not_eq_true'] at hsd
                push_neg at hsd
                obtain ⟨h1, h2⟩ := hsd
                simp [Bool.not_eq_false] at h1 h2
                simp [h1, h2, pure, Except.pure]

theorem QB.foldlM_colStep_count (rows : PyVal) (cols : List PyVal) :
    ∀ idx acc st', cols.foldlM (QB.colStep rows) (idx, acc) = .ok st' →
      st'.2.length = acc.length + cols.countP (fun c => QB.col_qualifies c) := by
  induction cols with
  | nil =>
    intro idx acc st' h
    simp only [List.foldlM_nil] at h
    cases h
    simp [List.countP_nil]
  | cons col cols ih =>
    intro idx acc st' h
    simp only [List.foldlM_cons] at h
    unfold QB.colStep at h
    simp only [bind, Except.bind] at h
    cases hp : QB.process_column col idx rows with
    | error e => rw [hp] at h; cases h
    | ok o =>
      rw [hp] at h
      have hq := QB.process_column_qualifies hp
      cases o with
      | some r =>
        simp only [pure, Except.pure] at h
        have := ih (idx + 1) (acc ++ [r]) st' h
        simp only [List.length_append, List.length_cons, List.length_nil] at this
        rw [List.countP_cons, hq]
        simp only [Option.isSome_some, if_true]
        omega
      | none =>
        simp only [pure, Except.pure] at h
        have := ih (idx + 1) acc st' h
        rw [List.countP_cons, hq]
        simp only [Option.isSome_none, Bool.false_eq_true, if_false]
        omega

/-- C2 amended: for every tabular document with a resolvable envelope, a
successful extraction yields exactly one draft per month column (the columns
after the first) whose title is not `"Total"` and whose metadata scan
produces *truthy* `StartDate` and `EndDate` values; columns whose entries are
present but empty are dropped like missing ones, silently. -/
theorem C2_amended_one_draft_per_qualifying_column
    (data colsV rowsV : PyVal) (monthCols : List PyVal) (drafts : List RecD)
    (henv : QB.envelope data = .ok (colsV, rowsV))
    (hslice : pySliceFrom1 colsV = .ok monthCols)
    (h : QB.extract_monthly_data data = .ok drafts) :
    drafts.length = monthCols.countP (fun c => QB.col_qualifies c) := by
  unfold QB.extract_monthly_data at h
  simp only [bind, Except.bind, henv, hslice] at h
  cases hf : monthCols.foldlM (QB.colStep rowsV) (0, []) with
  | error e => rw [hf] at h; cases h
  | ok st =>
    rw [hf] at h
    simp only [pure, Except.pure] at h
    cases h
    have := QB.foldlM_colStep_count rowsV monthCols 0 [] st hf
    simpa using this

def C2meta : List PyVal :=
  [.dict [(.str "Name", .str "StartDate"), (.str "Value", .str "")],
   .dict [(.str "Name", .str "EndDate"), (.str "Value", .str "2024-01-31")]]

def C2doc : PyVal :=
  .dict [(.str "data", .dict [
    (.str "Columns", .dict [(.str "Column", .list
      [.dict [(.str "ColTitle", .str "Account")],
       .dict [(.str "ColTitle", .str "Jan 2024"), (.str "MetaData", .list C2meta)]])]),
    (.str "Rows", .dict [(.str "Row", .list [])])])]

/-- C2 counterexample: a valid document whose single month column carries
*both* a `StartDate` and an `EndDate` metadata entry (so the claim counts it)
but whose `StartDate` value is the empty string: the parser drops the column
(`if not start_date` is true for `""`), producing zero drafts where the claim
requires one. -/
theorem C2_counterexample :
    QB.extract_monthly_data C2doc = .ok [] ∧
    C2meta.any (fun m => match pySubscr m "Name" with
      | .ok v => pyEqb v (.str "StartDate")
      | .error _ => false) = true ∧
    C2meta.any (fun m => match pySubscr m "Name" with
      | .ok v => pyEqb v (.str "EndDate")
      | .error _ => false) = true :=
  ⟨rfl, rfl, rfl⟩

def C2okMeta : List PyVal :=
  [.dict [(.str "Name", .str "StartDate"), (.str "Value", .str "2024-01-01")],
   .dict [(.str "Name", .str "EndDate"), (.str "Value", .str "2024-01-31")]]

def C2okDoc : PyVal :=
  .dict [(.str "data", .dict [
    (.str "Columns", .dict [(.str "Column", .list
      [.dict [(.str "ColTitle", .str "Account")],
       .dict [(.str "ColTitle", .str "Jan 2024"), (.str "MetaData", .list C2okMeta)],
       .dict [(.str "ColTitle", .str "Total")]])]),
    (.str "Rows", .dict [(.str "Row", .list [])])])]

theorem C2_amended_one_draft_per_qualifying_column_witness :
    (QB.extract_monthly_data C2okDoc).map List.length =
      .ok ([.dict [(.str "ColTitle", .str "Jan 2024"), (.str "MetaData", .list C2okMeta)],
            .dict [(.str "ColTitle", .str "Total")]].countP
        (fun c => QB.col_qualifies c)) := by
  have h := C2_amended_one_draft_per_qualifying_column C2okDoc
    (.list [.dict [(.str "ColTitle", .str "Account")],
            .dict [(.str "ColTitle", .str "Jan 2024"), (.str "MetaData", .list C2okMeta)],
            .dict [(.str "ColTitle", .str "Total")]])
    (.list [])
    [.dict [(.str "ColTitle", .str "Jan 2024"), (.str "MetaData", .list C2okMeta)],
     .dict [(.str "ColTitle", .str "Total")]]
    ((QB.extract_monthly_data C2okDoc).toOption.getD []) rfl rfl rfl
  rw [show QB.extract_monthly_data C2okDoc =
    .ok ((QB.extract_monthly_data C2okDoc).toOption.getD []) from rfl]
  simp only [Except.map]
  rw [h]

def C1badCol : PyVal :=
  .dict [(.str "ColTitle", .str "Jan 2024"),
         (.str "MetaData", .list [.dict [(.str "Value", .str "x")]])]

def C1goodCol : PyVal :=
  .dict [(.str "ColTitle", .str "Feb 2024"),
         (.str "MetaData", .list
           [.dict [(.str "Name", .str "StartDate"), (.str "Value", .str "2024-02-01")],
            .dict [(.str "Name", .str "EndDate"), (.str "Value", .str "2024-02-29")]])]

def C1doc : PyVal :=
  .dict [(.str "data", .dict [
    (.str "Columns", .dict [(.str "Column", .list
      [.dict [(.str "ColTitle", .str "Account")], C1badCol, C1goodCol])]),
    (.str "Rows", .dict [(.str "Row", .list [])])])]

def C1docNoBad : PyVal :=
  .dict [(.str "data", .dict [
    (.str "Columns", .dict [(.str "Column", .list
      [.dict [(.str "ColTitle", .str "Account")], C1goodCol])]),
    (.str "Rows", .dict [(.str "Row", .list [])])])]

/-- C1 counterexample: a document with a fully valid envelope containing one
malformed column (a metadata entry without a `Name` key) and one perfectly
good column.  The malformed column is *not* skipped: `meta['Name']` raises
`KeyError`, the whole extraction aborts, and the good column yields nothing —
whereas the same document without the malformed column parses to one draft.
This refutes the per-column-skip part of the claim. -/
theorem C1_counterexample :
    QB.envelope C1doc = .ok
      (.list [.dict [(.str "ColTitle", .str "Account")], C1badCol, C1goodCol],
       .list []) ∧
    QB.extract_monthly_data C1doc = .error (.keyError "Name") ∧
    (QB.extract_monthly_data C1docNoBad).map List.length = .ok 1 :=
  ⟨rfl, rfl, rfl⟩

/-- C1 amended: a missing envelope (any failure resolving
`data['data']['Columns']['Column']` / `['Rows']['Row']`) is fatal and is
surfaced as the application's source error; a column whose *well-formed*
metadata merely lacks truthy `StartDate`/`EndDate` values is skipped (the
loop body yields no draft and no error, for any rows and any position); but a
malformed column — e.g. a metadata entry without a `Name` key — aborts the
whole parse rather than being skipped (see the counterexample). -/
theorem C1_amended_error_policy :
    (∀ data : PyVal, (QB.envelope data).isOk = false →
      ∃ m, QB.parse_quickbooks data = .error (.dataSourceError m)) ∧
    (∀ (col : PyVal) (idx : Nat) (rows title mdv : PyVal) (md : List PyVal)
        (sd ed : Option PyVal),
      pyGetD col "ColTitle" (.str "") = .ok title →
      pyEqb title (.str "Total") = false →
      pyGetD col "MetaData" (.list []) = .ok mdv →
      pyIter mdv = .ok md →
      QB.colDates md = .ok (sd, ed) →
      (pyTruthyO sd && pyTruthyO ed) = false →
      QB.process_column col idx rows = .ok Option.none) := by
  constructor
  · intro data henv
    cases he : QB.envelope data with
    | ok v => rw [he] at henv; cases henv
    | error e =>
      refine ⟨"Failed to parse QuickBooks data", ?_⟩
      unfold QB.parse_quickbooks
      cases hx : QB.extract_monthly_data data with
      | ok ps =>
        exfalso
        unfold QB.extract_monthly_data at hx
        simp only [bind, Except.bind, he] at hx
        cases hx
      | error e2 => rfl
  · intro col idx rows title mdv md sd ed ht htot hm hit hcd hsd
    unfold QB.process_column
    have hcond : (!pyTruthyO sd || !pyTruthyO ed) = true := by
      rw [← Bool.not_and, hsd]
      rfl
    simp only [bind, Except.bind, ht, htot, Bool.false_eq_true, if_false, hm, hit, hcd,
      hcond, if_true, pure, Except.pure]

theorem C1_amended_error_policy_witness :
    (∃ m, QB.parse_quickbooks (.dict [(.str "data", .dict [])]) =
      .error (.dataSourceError m)) ∧
    QB.process_column C2doc 0 (.list []) = .ok Option.none ∧
    QB.process_column
      (.dict [(.str "ColTitle", .str "Jan 2024"), (.str "MetaData", .list C2meta)]) 3
      (.str "ignored rows") = .ok Option.none :=
  ⟨C1_amended_error_policy.1 (.dict [(.str "data", .dict [])]) rfl,
   C1_amended_error_policy.2 C2doc 0 (.list []) (.str "") (.list []) [] Option.none
     Option.none rfl rfl rfl rfl rfl rfl,
   C1_amended_error_policy.2 _ 3 (.str "ignored rows") (.str "Jan 2024") (.list C2meta)
     C2meta (some (.str "")) (some (.str "2024-01-31")) rfl rfl rfl rfl rfl rfl⟩

/-! ## C4 -/

theorem dictInsert_values {P : PyVal → Prop} {kvs : List (PyVal × PyVal)} {k v : PyVal}
    (hkvs : ∀ p ∈ kvs, P p.2) (hv : P v) : ∀ p ∈ dictInsert kvs k v, P p.2 := by
  intro p hp
  unfold dictInsert at hp
  split at hp
  · obtain ⟨q, hq, hqe⟩ := List.mem_map.mp hp
    by_cases hqk : pyEqb q.1 k = true
    · rw [if_pos hqk] at hqe
      rw [← hqe]
      exact hv
    · rw [if_neg hqk] at hqe
      rw [← hqe]
      exact hkvs q hq
  · rcases List.mem_append.mp hp with h2 | h2
    · exact hkvs p h2
    · simp only [List.mem_singleton] at h2
      rw [h2]
      exact hv

theorem dictUpdate_values {P : PyVal → Prop} :
    ∀ (other kvs : List (PyVal × PyVal)), (∀ p ∈ kvs, P p.2) → (∀ p ∈ other, P p.2) →
      ∀ p ∈ dictUpdate kvs other, P p.2 := by
  intro other
  induction other with
  | nil => intro kvs h1 _ p hp; exact h1 p hp
  | cons o os ih =>
    intro kvs h1 h2 p hp
    unfold dictUpdate at hp
    simp only [List.foldl_cons] at hp
    exact ih (dictInsert kvs o.1 o.2)
      (dictInsert_values h1 (h2 o (List.mem_cons_self _ _)))
      (fun q hq => h2 q (List.mem_cons_of_mem _ hq)) p hp

theorem foldlM_except_inv {α β : Type} {P : β → Prop} {f : β → α → Except PyError β}
    (hf : ∀ b a b', P b → f b a = .ok b' → P b') :
    ∀ (l : List α) (b0 b1 : β), P b0 → l.foldlM f b0 = .ok b1 → P b1 := by
  intro l
  induction l with
  | nil =>
    intro b0 b1 h0 h
    simp only [List.foldlM_nil, pure, Except.pure] at h
    cases h
    exact h0
  | cons a l ih =>
    intro b0 b1 h0 h
    simp only [List.foldlM_cons, bind, Except.bind] at h
    cases hf0 : f b0 a with
    | error e => rw [hf0] at h; cases h
    | ok b2 => rw [hf0] at h; exact ih b2 b1 (hf _ _ _ h0 hf0) h

/-- "is not Python-equal to `0`" — the guard both breakdown builders use. -/
def nzVal (v : PyVal) : Prop := pyEqb v (.num (.finite 0)) = false

theorem bind_ok_inv {α β : Type} {e : Except PyError α} {k : α → Except PyError β} {out : β}
    (h : (e >>= k) = .ok out) : ∃ v, e = .ok v ∧ k v = .ok out := by
  cases e with
  | ok v => exact ⟨v, rfl, h⟩
  | error e2 => simp [bind, Except.bind] at h

theorem QB.bdStep_nz {ci : Nat} {bd bd' : List (PyVal × PyVal)} {sr : PyVal}
    (h0 : ∀ p ∈ bd, nzVal p.2) (h : QB.bdStep ci bd sr = .ok bd') :
    ∀ p ∈ bd', nzVal p.2 := by
  unfold QB.bdStep at h
  obtain ⟨o, _, h⟩ := bind_ok_inv h
  cases o with
  | none =>
    simp only [pure, Except.pure] at h
    cases h
    exact h0
  | some colData =>
    obtain ⟨c0, _, h⟩ := bind_ok_inv h
    obtain ⟨accountName, _, h⟩ := bind_ok_inv h
    obtain ⟨cell, _, h⟩ := bind_ok_inv h
    obtain ⟨vstr, _, h⟩ := bind_ok_inv h
    by_cases hz : PyNum.eqb (parse_value vstr) (.finite 0) = true
    · rw [if_pos hz] at h
      simp only [pure, Except.pure] at h
      cases h
      exact h0
    · rw [if_neg hz] at h
      simp only [pure, Except.pure] at h
      cases h
      refine dictInsert_values h0 ?_
      show pyEqb (.num (parse_value vstr)) (.num (.finite 0)) = false
      simp only [pyEqb]
      exact eq_false_of_ne_true hz

theorem QB.extract_breakdown_cells_nz {row : PyVal} {ci : Nat} {bd : List (PyVal × PyVal)}
    (h : QB.extract_breakdown row ci = .ok bd) : ∀ p ∈ bd, nzVal p.2 := by
  unfold QB.extract_breakdown at h
  obtain ⟨hasRows, _, h⟩ := bind_ok_inv h
  cases hasRows with
  | false =>
    rw [if_neg Bool.false_ne_true] at h
    simp only [pure, Except.pure] at h
    cases h
    intro p hp
    cases hp
  | true =>
    rw [if_pos rfl] at h
    obtain ⟨rowsV, _, h⟩ := bind_ok_inv h
    obtain ⟨hasRow, _, h⟩ := bind_ok_inv h
    cases hasRow with
    | false =>
      rw [if_neg Bool.false_ne_true] at h
      simp only [pure, Except.pure] at h
      cases h
      intro p hp
      cases hp
    | true =>
      rw [if_pos rfl] at h
      obtain ⟨subRowsV, _, h⟩ := bind_ok_inv h
      obtain ⟨subRows, _, h⟩ := bind_ok_inv h
      exact foldlM_except_inv (fun b a b' => QB.bdStep_nz) subRows [] bd
        (by intro p hp; cases hp) h

def QB.MetricsNZ (m : QB.Metrics) : Prop :=
  (∀ p ∈ m.revenue_breakdown, nzVal p.2) ∧ (∀ p ∈ m.expense_breakdown, nzVal p.2)

theorem QB.rowStep_nz {ci : Nat} {m m' : QB.Metrics} {row : PyVal}
    (h0 : QB.MetricsNZ m) (h : QB.rowStep ci m row = .ok m') : QB.MetricsNZ m' := by
  unfold QB.rowStep at h
  obtain ⟨group, _, h⟩ := bind_ok_inv h
  obtain ⟨hasSummary, _, h⟩ := bind_ok_inv h
  cases hasSummary with
  | false =>
    rw [if_neg Bool.false_ne_true] at h
    simp only [pure, Except.pure] at h
    cases h
    exact h0
  | true =>
    rw [if_pos rfl] at h
    obtain ⟨summ, _, h⟩ := bind_ok_inv h
    obtain ⟨colData, _, h⟩ := bind_ok_inv h
    obtain ⟨cell, _, h⟩ := bind_ok_inv h
    obtain ⟨vstr, _, h⟩ := bind_ok_inv h
    by_cases g1 : pyEqb group (.str "Income") = true
    · rw [if_pos g1] at h
      obtain ⟨bd2, hbd, h⟩ := bind_ok_inv h
      simp only [pure, Except.pure] at h
      cases h
      exact ⟨QB.extract_breakdown_cells_nz hbd, h0.2⟩
    · rw [if_neg g1] at h
      by_cases g2 : pyEqb group (.str "COGS") = true
      · rw [if_pos g2] at h
        simp only [pure, Except.pure] at h
        cases h
        exact h0
      · rw [if_neg g2] at h
        by_cases g3 : pyEqb group (.str "GrossProfit") = true
        · rw [if_pos g3] at h
          simp only [pure, Except.pure] at h
          cases h
          exact h0
        · rw [if_neg g3] at h
          by_cases g4 : pyEqb group (.str "Expenses") = true
          · rw [if_pos g4] at h
            obtain ⟨bd2, hbd, h⟩ := bind_ok_inv h
            simp only [pure, Except.pure] at h
            cases h
            exact ⟨h0.1, QB.extract_breakdown_cells_nz hbd⟩
          · rw [if_neg g4] at h
            by_cases g5 : pyEqb group (.str "NetIncome") = true
            · rw [if_pos g5] at h
              simp only [pure, Except.pure] at h
              cases h
              exact h0
            · rw [if_neg g5] at h
              simp only [pure, Except.pure] at h
              cases h
              exact h0

theorem QB.extract_period_metrics_nz {rows : PyVal} {ci : Nat} {m : QB.Metrics}
    (h : QB.extract_period_metrics rows ci = .ok m) : QB.MetricsNZ m := by
  unfold QB.extract_period_metrics at h
  obtain ⟨rowList, _, h⟩ := bind_ok_inv h
  refine foldlM_except_inv (fun b a b' => QB.rowStep_nz) rowList {} m ?_ h
  constructor <;> (intro p hp; cases hp)

/-- The `acc1` accumulator after one dict item of the Rootfi breakdown loop:
insert its nonzero `value` under its `name`, else leave the dict unchanged. -/
def RF.acc1Of (acc : List (PyVal × PyVal)) (kvs : List (PyVal × PyVal)) :
    List (PyVal × PyVal) :=
  if pyEqb ((dictLookup kvs (.str "value")).getD (.num (.finite 0)))
      (.num (.finite 0)) = true then acc
  else dictInsert acc ((dictLookup kvs (.str "name")).getD (.str "Unknown"))
    ((dictLookup kvs (.str "value")).getD (.num (.finite 0)))

theorem RF.acc1Of_nz {acc kvs} (hacc : ∀ p ∈ acc, nzVal p.2) :
    ∀ p ∈ RF.acc1Of acc kvs, nzVal p.2 := by
  unfold RF.acc1Of
  split
  · exact hacc
  · rename_i hz
    exact dictInsert_values hacc (eq_false_of_ne_true hz)

theorem RF.ebi_cons_dict_inv {acc kvs rest out}
    (h : RF.extract_breakdown_items acc (.dict kvs :: rest) = .ok out) :
    (∃ xs sub, dictLookup kvs (.str "line_items") = some (.list xs) ∧
      RF.extract_breakdown_items [] xs = .ok sub ∧
      RF.extract_breakdown_items (dictUpdate (RF.acc1Of acc kvs) sub) rest = .ok out) ∨
    RF.extract_breakdown_items (RF.acc1Of acc kvs) rest = .ok out := by
  rw [RF.extract_breakdown_items.eq_def] at h
  split at h
  next heq =>
    exact absurd heq (by simp)
  next x1 x2 item2 rest2 heq =>
    injection heq with he1 he2
    subst he1
    subst he2
    split at h
    next kvs2 heq2 =>
      injection heq2 with hk
      subst hk
      split at h
      next li hlk =>
        split at h
        next htr =>
          split at h
          next =>
            rename_i xs
            obtain ⟨sub, hs1, hs2⟩ := bind_ok_inv h
            exact Or.inl ⟨xs, sub, hlk, hs1, hs2⟩
          next => exfalso; revert h; simp
          next => exfalso; revert h; simp
          next => exfalso; revert h; simp
        next hnt => exact Or.inr h
      next hlk => exact Or.inr h
    next hne => exact absurd rfl (hne kvs)

theorem RF.ebi_cons_nondict {acc : List (PyVal × PyVal)} {item : PyVal} {rest : List PyVal}
    (hnd : ∀ kvs : List (PyVal × PyVal), item ≠ .dict kvs) :
    ∃ e, RF.extract_breakdown_items acc (item :: rest) = .error e := by
  rw [RF.extract_breakdown_items.eq_def]
  cases item with
  | dict kvs => exact absurd rfl (hnd kvs)
  | none => exact ⟨_, rfl⟩
  | bool b => exact ⟨_, rfl⟩
  | num x => exact ⟨_, rfl⟩
  | str s => exact ⟨_, rfl⟩
  | list xs => exact ⟨_, rfl⟩

theorem RF.extract_breakdown_items_nz :
    ∀ (n : Nat) (items : List PyVal) (acc : List (PyVal × PyVal)),
      sizeOf items ≤ n → (∀ p ∈ acc, nzVal p.2) →
      ∀ bd, RF.extract_breakdown_items acc items = .ok bd → ∀ p ∈ bd, nzVal p.2 := by
  intro n
  induction n using Nat.strong_induction_on with
  | _ n ih =>
    intro items acc hsz hacc bd h
    cases items with
    | nil =>
      rw [RF.extract_breakdown_items.eq_def] at h
      cases h
      exact hacc
    | cons item rest =>
      cases item with
      | dict kvs =>
        have hszr : sizeOf rest < n := by
          simp only [List.cons.sizeOf_spec] at hsz
          omega
        rcases RF.ebi_cons_dict_inv h with ⟨xs, sub, hlk, hs1, hs2⟩ | hrec
        · have hxs : sizeOf xs < n := by
            have h1 : sizeOf (PyVal.list xs) < sizeOf kvs := dictLookup_sizeOf hlk
            simp only [PyVal.list.sizeOf_spec] at h1
            simp only [List.cons.sizeOf_spec, PyVal.dict.sizeOf_spec] at hsz
            omega
          have hsub := ih (sizeOf xs) hxs xs [] le_rfl (by intro p hp; cases hp) sub hs1
          exact ih (sizeOf rest) hszr rest _ le_rfl
            (dictUpdate_values _ _ (RF.acc1Of_nz hacc) hsub) bd hs2
        · exact ih (sizeOf rest) hszr rest _ le_rfl (RF.acc1Of_nz hacc) bd hrec
      | none =>
        obtain ⟨e, he⟩ := @RF.ebi_cons_nondict acc PyVal.none rest (fun kvs hk => by cases hk)
        rw [he] at h
        cases h
      | bool b =>
        obtain ⟨e, he⟩ := @RF.ebi_cons_nondict acc (PyVal.bool b) rest (fun kvs hk => by cases hk)
        rw [he] at h
        cases h
      | num x =>
        obtain ⟨e, he⟩ := @RF.ebi_cons_nondict acc (PyVal.num x) rest (fun kvs hk => by cases hk)
        rw [he] at h
        cases h
      | str s =>
        obtain ⟨e, he⟩ := @RF.ebi_cons_nondict acc (PyVal.str s) rest (fun kvs hk => by cases hk)
        rw [he] at h
        cases h
      | list xs =>
        obtain ⟨e, he⟩ := @RF.ebi_cons_nondict acc (PyVal.list xs) rest (fun kvs hk => by cases hk)
        rw [he] at h
        cases h

theorem RF.extract_breakdown_nz {v : PyVal} {bd : List (PyVal × PyVal)}
    (h : RF.extract_breakdown v = .ok bd) : ∀ p ∈ bd, nzVal p.2 := by
  unfold RF.extract_breakdown at h
  cases v with
  | list xs =>
    exact RF.extract_breakdown_items_nz (sizeOf xs) xs [] le_rfl
      (by intro p hp; cases hp) bd h
  | str s =>
    replace h : (if s.isEmpty = true then (Except.ok [] : Except PyError (List (PyVal × PyVal)))
        else .error (.attributeError "str object has no attribute get")) = .ok bd := h
    by_cases hs : s.isEmpty
    · rw [if_pos hs] at h; cases h; intro p hp; cases hp
    · rw [if_neg hs] at h; cases h
  | dict kvs =>
    replace h : (if kvs.isEmpty = true then (Except.ok [] : Except PyError (List (PyVal × PyVal)))
        else .error (.attributeError "object has no attribute get")) = .ok bd := h
    by_cases hs : kvs.isEmpty
    · rw [if_pos hs] at h; cases h; intro p hp; cases hp
    · rw [if_neg hs] at h; cases h
  | none => cases h
  | bool b => cases h
  | num x => cases h

/-- Inversion of `RF.transform_record`: the draft's breakdown entries are the
results of `_extract_breakdown` on the record's `revenue` and
`operating_expenses` lists. -/
theorem RF.transform_record_breakdowns {record : PyVal} {d : RecD}
    (h : RF.transform_record record = .ok d) :
    ∃ rv ov rb eb,
      pyGetD record "revenue" (.list []) = .ok rv ∧
      pyGetD record "operating_expenses" (.list []) = .ok ov ∧
      RF.extract_breakdown rv = .ok rb ∧
      RF.extract_breakdown ov = .ok eb ∧
      recGet d "revenue_breakdown" = some (.dict rb) ∧
      recGet d "expense_breakdown" = some (.dict eb) := by
  unfold RF.transform_record at h
  obtain ⟨ps, _, h⟩ := bind_ok_inv h
  obtain ⟨pe, _, h⟩ := bind_ok_inv h
  obtain ⟨rv, hrv, h⟩ := bind_ok_inv h
  obtain ⟨rev, _, h⟩ := bind_ok_inv h
  obtain ⟨cg, _, h⟩ := bind_ok_inv h
  obtain ⟨cogs, _, h⟩ := bind_ok_inv h
  obtain ⟨gp, _, h⟩ := bind_ok_inv h
  obtain ⟨ov, hov, h⟩ := bind_ok_inv h
  obtain ⟨opex, _, h⟩ := bind_ok_inv h
  obtain ⟨op, _, h⟩ := bind_ok_inv h
  obtain ⟨nrv, _, h⟩ := bind_ok_inv h
  obtain ⟨nor, _, h⟩ := bind_ok_inv h
  obtain ⟨nev, _, h⟩ := bind_ok_inv h
  obtain ⟨noe, _, h⟩ := bind_ok_inv h
  obtain ⟨np, _, h⟩ := bind_ok_inv h
  obtain ⟨rv2, hrv2, h⟩ := bind_ok_inv h
  obtain ⟨rb, hrb, h⟩ := bind_ok_inv h
  obtain ⟨ov2, hov2, h⟩ := bind_ok_inv h
  obtain ⟨eb, heb, h⟩ := bind_ok_inv h
  simp only [pure, Except.pure] at h
  cases h
  rw [hrv] at hrv2
  injection hrv2 with hrv2e
  subst hrv2e
  rw [hov] at hov2
  injection hov2 with hov2e
  subst hov2e
  exact ⟨rv, ov, rb, eb, hrv, hov, hrb, heb, rfl, rfl⟩

/-- The no-zero-breakdown property of one draft record. -/
def DraftBDNZ (d : RecD) : Prop :=
  ∀ bd : List (PyVal × PyVal),
    (recGet d "revenue_breakdown" = some (.dict bd) ∨
     recGet d "expense_breakdown" = some (.dict bd)) →
    ∀ p ∈ bd, pyEqb p.2 (.num (.finite 0)) = false

theorem QB.process_column_draft_nz {col : PyVal} {idx : Nat} {rows : PyVal} {d : RecD}
    (h : QB.process_column col idx rows = .ok (some d)) : DraftBDNZ d := by
  unfold QB.process_column at h
  obtain ⟨title, _, h⟩ := bind_ok_inv h
  by_cases ht : pyEqb title (.str "Total") = true
  · rw [if_pos ht] at h
    simp only [pure, Except.pure] at h
    cases h
  · rw [if_neg ht] at h
    obtain ⟨mdv, _, h⟩ := bind_ok_inv h
    obtain ⟨metadata, _, h⟩ := bind_ok_inv h
    obtain ⟨sde, _, h⟩ := bind_ok_inv h
    obtain ⟨sd, ed⟩ := sde
    replace h : (if (!pyTruthyO sd || !pyTruthyO ed) = true then pure Option.none
        else do
          let m ← QB.extract_period_metrics rows (idx + 1)
          pure (some (QB.metricsToRec (sd.getD PyVal.none) (ed.getD PyVal.none) m)) :
        Except PyError (Option RecD)) = .ok (some d) := h
    by_cases hsd : (!pyTruthyO sd || !pyTruthyO ed) = true
    · rw [if_pos hsd] at h
      simp only [pure, Except.pure] at h
      cases h
    · rw [if_neg hsd] at h
      obtain ⟨m, hm, h⟩ := bind_ok_inv h
      simp only [pure, Except.pure] at h
      cases h
      have hmnz := QB.extract_period_metrics_nz hm
      intro bd hbd p hp
      rcases hbd with hbd | hbd
      · have : recGet (QB.metricsToRec ((sd).getD .none) ((ed).getD .none) m)
            "revenue_breakdown" = some (.dict m.revenue_breakdown) := rfl
        rw [this] at hbd
        injection hbd with hbd2
        injection hbd2 with hbd3
        subst hbd3
        exact hmnz.1 p hp
      · have : recGet (QB.metricsToRec ((sd).getD .none) ((ed).getD .none) m)
            "expense_breakdown" = some (.dict m.expense_breakdown) := rfl
        rw [this] at hbd
        injection hbd with hbd2
        injection hbd2 with hbd3
        subst hbd3
        exact hmnz.2 p hp

theorem QB.colStep_draft_nz {rows : PyVal} {st st' : Nat × List RecD} {col : PyVal}
    (h0 : ∀ d ∈ st.2, DraftBDNZ d) (h : QB.colStep rows st col = .ok st') :
    ∀ d ∈ st'.2, DraftBDNZ d := by
  unfold QB.colStep at h
  obtain ⟨o, ho, h⟩ := bind_ok_inv h
  cases o with
  | none =>
    simp only [pure, Except.pure] at h
    cases h
    exact h0
  | some r =>
    simp only [pure, Except.pure] at h
    cases h
    intro d hd
    rcases List.mem_append.mp hd with hd | hd
    · exact h0 d hd
    · simp only [List.mem_singleton] at hd
      subst hd
      exact QB.process_column_draft_nz ho

theorem RF.trStep_draft_nz {acc acc' : List RecD} {record : PyVal}
    (h0 : ∀ d ∈ acc, DraftBDNZ d) (h : RF.trStep acc record = .ok acc') :
    ∀ d ∈ acc', DraftBDNZ d := by
  unfold RF.trStep at h
  obtain ⟨r, hr, h⟩ := bind_ok_inv h
  simp only [pure, Except.pure] at h
  cases h
  intro d hd
  rcases List.mem_append.mp hd with hd | hd
  · exact h0 d hd
  · simp only [List.mem_singleton] at hd
    subst hd
    obtain ⟨rv, ov, rb, eb, _, _, hrb, heb, hgr, hge⟩ := RF.transform_record_breakdowns hr
    intro bd hbd p hp
    rcases hbd with hbd | hbd
    · rw [hgr] at hbd
      injection hbd with hbd2
      injection hbd2 with hbd3
      subst hbd3
      exact RF.extract_breakdown_nz hrb p hp
    · rw [hge] at hbd
      injection hbd with hbd2
      injection hbd2 with hbd3
      subst hbd3
      exact RF.extract_breakdown_nz heb p hp

/-- C4: no draft produced by either parser carries a zero-valued breakdown
entry: both `_extract_breakdown` implementations insert an entry only under
the guard `value != 0` (Python equality, so `0`, `0.0` and `False` are all
excluded). -/
theorem C4_breakdowns_never_zero :
    (∀ (doc : PyVal) (drafts : List RecD), QB.extract_monthly_data doc = .ok drafts →
      ∀ d ∈ drafts, ∀ bd : List (PyVal × PyVal),
        (recGet d "revenue_breakdown" = some (.dict bd) ∨
         recGet d "expense_breakdown" = some (.dict bd)) →
        ∀ p ∈ bd, pyEqb p.2 (.num (.finite 0)) = false) ∧
    (∀ (records : PyVal) (drafts : List RecD), RF.transform_data records = .ok drafts →
      ∀ d ∈ drafts, ∀ bd : List (PyVal × PyVal),
        (recGet d "revenue_breakdown" = some (.dict bd) ∨
         recGet d "expense_breakdown" = some (.dict bd)) →
        ∀ p ∈ bd, pyEqb p.2 (.num (.finite 0)) = false) := by
  constructor
  · intro doc drafts h
    unfold QB.extract_monthly_data at h
    obtain ⟨cr, _, h⟩ := bind_ok_inv h
    obtain ⟨colsV, rowsV⟩ := cr
    obtain ⟨monthCols, _, h⟩ := bind_ok_inv h
    obtain ⟨st, hst, h⟩ := bind_ok_inv h
    simp only [pure, Except.pure] at h
    cases h
    exact foldlM_except_inv (fun b a b' => QB.colStep_draft_nz) monthCols (0, []) st
      (by intro d hd; cases hd) hst
  · intro records drafts h
    unfold RF.transform_data at h
    obtain ⟨rs, _, h⟩ := bind_ok_inv h
    exact foldlM_except_inv (fun b a b' => RF.trStep_draft_nz) rs [] drafts
      (by intro d hd; cases hd) h

def C4qbDoc : PyVal :=
  .dict [(.str "data", .dict [
    (.str "Columns", .dict [(.str "Column", .list
      [.dict [(.str "ColTitle", .str "Account")],
       .dict [(.str "ColTitle", .str "Jan 2024"), (.str "MetaData", .list C2okMeta)]])]),
    (.str "Rows", .dict [(.str "Row", .list
      [.dict [(.str "group", .str "Income"),
        (.str "Summary", .dict [(.str "ColData", .list
          [.dict [(.str "value", .str "")], .dict [(.str "value", .str "100")]])]),
        (.str "Rows", .dict [(.str "Row", .list
          [.dict [(.str "ColData", .list
            [.dict [(.str "value", .str "Sales")], .dict [(.str "value", .str "100")]])],
           .dict [(.str "ColData", .list
            [.dict [(.str "value", .str "Refunds")], .dict [(.str "value", .str "0")]])]])])]])])])]

def C4rfDoc : PyVal :=
  .list [.dict [(.str "period_start", .str "2024-01-01"),
    (.str "period_end", .str "2024-01-31"),
    (.str "revenue", .list [.dict [(.str "name", .str "Sales"),
      (.str "value", .num (.finite 500)),
      (.str "line_items", .list [.dict [(.str "name", .str "Online"),
        (.str "value", .num (.finite 300))],
        .dict [(.str "name", .str "Void"), (.str "value", .num (.finite 0))]])]])]]

theorem C4_breakdowns_never_zero_witness :
    (∀ d ∈ [(QB.metricsToRec (.str "2024-01-01") (.str "2024-01-31")
        { revenue := .finite 100,
          revenue_breakdown := [(.str "Sales", .num (.finite 100))] : QB.Metrics })],
      ∀ bd : List (PyVal × PyVal),
        (recGet d "revenue_breakdown" = some (.dict bd) ∨
         recGet d "expense_breakdown" = some (.dict bd)) →
        ∀ p ∈ bd, pyEqb p.2 (.num (.finite 0)) = false) ∧
    (∀ drafts : List RecD, RF.transform_data C4rfDoc = .ok drafts →
      ∀ d ∈ drafts, ∀ bd : List (PyVal × PyVal),
        (recGet d "revenue_breakdown" = some (.dict bd) ∨
         recGet d "expense_breakdown" = some (.dict bd)) →
        ∀ p ∈ bd, pyEqb p.2 (.num (.finite 0)) = false) :=
  ⟨C4_breakdowns_never_zero.1 C4qbDoc _ rfl,
   fun drafts h => C4_breakdowns_never_zero.2 C4rfDoc drafts h⟩

/-! ## Equality lemmas for `pyEqb` (a partial equivalence: symmetric and
transitive; not reflexive at `nan`) -/

theorem PyNum.eqb_symm (a b : PyNum) : PyNum.eqb a b = PyNum.eqb b a := by
  cases a <;> cases b <;> simp [PyNum.eqb] <;> exact eq_comm

theorem PyNum.eqb_trans {a b c : PyNum} (h1 : PyNum.eqb a b = true)
    (h2 : PyNum.eqb b c = true) : PyNum.eqb a c = true := by
  cases a <;> cases b <;> cases c <;>
    simp [PyNum.eqb, beq_iff_eq] at h1 h2 ⊢ <;> exact h1.trans h2

theorem pyEqbList_symm_aux {as : List PyVal}
    (hs : ∀ x ∈ as, ∀ y, pyEqb x y = pyEqb y x) :
    ∀ bs, pyEqbList as bs = pyEqbList bs as := by
  induction as with
  | nil => intro bs; cases bs <;> rfl
  | cons a as ih =>
    intro bs
    cases bs with
    | nil => rfl
    | cons b bs =>
      simp only [pyEqbList]
      rw [hs a (List.mem_cons_self _ _) b,
        ih (fun x hx y => hs x (List.mem_cons_of_mem _ hx) y) bs]

theorem pyEqbPairs_symm_aux {as : List (PyVal × PyVal)}
    (hs : ∀ x ∈ as, ∀ y, (pyEqb x.1 y = pyEqb y x.1) ∧ (pyEqb x.2 y = pyEqb y x.2)) :
    ∀ bs, pyEqbPairs as bs = pyEqbPairs bs as := by
  induction as with
  | nil => intro bs; cases bs <;> rfl
  | cons a as ih =>
    intro bs
    cases bs with
    | nil => rfl
    | cons b bs =>
      obtain ⟨k, v⟩ := a
      obtain ⟨k2, v2⟩ := b
      simp only [pyEqbPairs]
      rw [(hs (k, v) (List.mem_cons_self _ _) k2).1,
        (hs (k, v) (List.mem_cons_self _ _) v2).2,
        ih (fun x hx y => hs x (List.mem_cons_of_mem _ hx) y) bs]

theorem pyEqb_symm : ∀ (a b : PyVal), pyEqb a b = pyEqb b a := by
  have main : ∀ (n : Nat) (a : PyVal), sizeOf a ≤ n → ∀ b, pyEqb a b = pyEqb b a := by
    intro n
    induction n using Nat.strong_induction_on with
    | _ n ih =>
      intro a hsz b
      cases a with
      | none => cases b <;> rfl
      | bool x =>
        cases b with
        | none => rfl
        | bool y => cases x <;> cases y <;> rfl
        | num y => exact PyNum.eqb_symm (.finite (if x then 1 else 0)) y
        | str s => rfl
        | list ys => rfl
        | dict kvs => rfl
      | num x =>
        cases b with
        | none => rfl
        | bool y => exact PyNum.eqb_symm x (.finite (if y then 1 else 0))
        | num y => exact PyNum.eqb_symm x y
        | str s => rfl
        | list ys => rfl
        | dict kvs => rfl
      | str s =>
        cases b with
        | none => rfl
        | bool y => rfl
        | num y => rfl
        | str t => simp [pyEqb]; exact eq_comm
        | list ys => rfl
        | dict kvs => rfl
      | list xs =>
        cases b <;> try rfl
        case list ys =>
          simp only [pyEqb]
          refine pyEqbList_symm_aux ?_ ys
          intro x hx y
          refine ih (sizeOf x) ?_ x le_rfl y
          have := List.sizeOf_lt_of_mem hx
          simp only [PyVal.list.sizeOf_spec] at hsz ⊢
          omega
      | dict kvs =>
        cases b <;> try rfl
        case dict kvs2 =>
          simp only [pyEqb]
          refine pyEqbPairs_symm_aux ?_ kvs2
          intro x hx y
          have hx1 : sizeOf x.1 < n := by
            have := List.sizeOf_lt_of_mem hx
            obtain ⟨x1, x2⟩ := x
            simp only [PyVal.dict.sizeOf_spec] at hsz
            simp only [Prod.mk.sizeOf_spec] at this
            simp only
            omega
          have hx2 : sizeOf x.2 < n := by
            have := List.sizeOf_lt_of_mem hx
            obtain ⟨x1, x2⟩ := x
            simp only [PyVal.dict.sizeOf_spec] at hsz
            simp only [Prod.mk.sizeOf_spec] at this
            simp only
            omega
          exact ⟨ih (sizeOf x.1) hx1 x.1 le_rfl y, ih (sizeOf x.2) hx2 x.2 le_rfl y⟩
  exact fun a b => main (sizeOf a) a le_rfl b

theorem iteOne_inj {x z : Bool}
    (h : PyNum.eqb (.finite (if x then 1 else 0)) (.finite (if z then 1 else 0)) = true) :
    x = z := by
  cases x <;> cases z
  · rfl
  · simp [PyNum.eqb] at h
  · simp [PyNum.eqb] at h
  · rfl

theorem pyEqbList_trans_aux {as : List PyVal}
    (hs : ∀ x ∈ as, ∀ y z, pyEqb x y = true → pyEqb y z = true → pyEqb x z = true) :
    ∀ bs cs, pyEqbList as bs = true → pyEqbList bs cs = true → pyEqbList as cs = true := by
  induction as with
  | nil =>
    intro bs cs h1 h2
    cases bs with
    | nil => exact h2
    | cons b bs => exact Bool.noConfusion h1
  | cons a as ih =>
    intro bs cs h1 h2
    cases bs with
    | nil => exact Bool.noConfusion h1
    | cons b bs =>
      cases cs with
      | nil => exact Bool.noConfusion h2
      | cons c cs =>
        simp only [pyEqbList, Bool.and_eq_true] at h1 h2 ⊢
        exact ⟨hs a (List.mem_cons_self _ _) b c h1.1 h2.1,
          ih (fun x hx => hs x (List.mem_cons_of_mem _ hx)) bs cs h1.2 h2.2⟩

theorem pyEqbPairs_trans_aux {as : List (PyVal × PyVal)}
    (hs : ∀ p ∈ as,
      (∀ y z, pyEqb p.1 y = true → pyEqb y z = true → pyEqb p.1 z = true) ∧
      (∀ y z, pyEqb p.2 y = true → pyEqb y z = true → pyEqb p.2 z = true)) :
    ∀ bs cs, pyEqbPairs as bs = true → pyEqbPairs bs cs = true →
      pyEqbPairs as cs = true := by
  induction as with
  | nil =>
    intro bs cs h1 h2
    cases bs with
    | nil => exact h2
    | cons b bs => exact Bool.noConfusion h1
  | cons a as ih =>
    intro bs cs h1 h2
    cases bs with
    | nil => exact Bool.noConfusion h1
    | cons b bs =>
      cases cs with
      | nil => exact Bool.noConfusion h2
      | cons c cs =>
        obtain ⟨k, v⟩ := a
        obtain ⟨k2, v2⟩ := b
        obtain ⟨k3, v3⟩ := c
        simp only [pyEqbPairs, Bool.and_eq_true] at h1 h2 ⊢
        refine ⟨⟨(hs (k, v) (List.mem_cons_self _ _)).1 k2 k3 h1.1.1 h2.1.1,
          (hs (k, v) (List.mem_cons_self _ _)).2 v2 v3 h1.1.2 h2.1.2⟩,
          ih (fun p hp => hs p (List.mem_cons_of_mem _ hp)) bs cs h1.2 h2.2⟩

theorem pyEqb_trans : ∀ (a b c : PyVal),
    pyEqb a b = true → pyEqb b c = true → pyEqb a c = true := by
  have main : ∀ (n : Nat) (a : PyVal), sizeOf a ≤ n → ∀ b c,
      pyEqb a b = true → pyEqb b c = true → pyEqb a c = true := by
    intro n
    induction n using Nat.strong_induction_on with
    | _ n ih =>
      intro a hsz b c h1 h2
      cases a with
      | none =>
        cases b with
        | none =>
          cases c with
          | none => rfl
          | bool z => exact Bool.noConfusion h2
          | num z => exact Bool.noConfusion h2
          | str t => exact Bool.noConfusion h2
          | list zs => exact Bool.noConfusion h2
          | dict kvs => exact Bool.noConfusion h2
        | bool y => exact Bool.noConfusion h1
        | num y => exact Bool.noConfusion h1
        | str t => exact Bool.noConfusion h1
        | list ys => exact Bool.noConfusion h1
        | dict kvs => exact Bool.noConfusion h1
      | bool x =>
        cases b with
        | bool y =>
          replace h1 : x = y := by simpa [pyEqb] using h1
          subst h1
          exact h2
        | num y =>
          replace h1 : PyNum.eqb (.finite (if x then 1 else 0)) y = true := h1
          cases c with
          | bool z =>
            replace h2 : PyNum.eqb y (.finite (if z then 1 else 0)) = true := h2
            have hxz := iteOne_inj (PyNum.eqb_trans h1 h2)
            subst hxz
            simp [pyEqb]
          | num z =>
            replace h2 : PyNum.eqb y z = true := h2
            exact PyNum.eqb_trans h1 h2
          | none => exact Bool.noConfusion h2
          | str t => exact Bool.noConfusion h2
          | list zs => exact Bool.noConfusion h2
          | dict kvs => exact Bool.noConfusion h2
        | none => exact Bool.noConfusion h1
        | str t => exact Bool.noConfusion h1
        | list ys => exact Bool.noConfusion h1
        | dict kvs => exact Bool.noConfusion h1
      | num x =>
        cases b with
        | bool y =>
          replace h1 : PyNum.eqb x (.finite (if y then 1 else 0)) = true := h1
          cases c with
          | bool z =>
            replace h2 : y = z := by simpa [pyEqb] using h2
            subst h2
            exact h1
          | num z =>
            replace h2 : PyNum.eqb (.finite (if y then 1 else 0)) z = true := h2
            exact PyNum.eqb_trans h1 h2
          | none => exact Bool.noConfusion h2
          | str t => exact Bool.noConfusion h2
          | list zs => exact Bool.noConfusion h2
          | dict kvs => exact Bool.noConfusion h2
        | num y =>
          replace h1 : PyNum.eqb x y = true := h1
          cases c with
          | bool z =>
            replace h2 : PyNum.eqb y (.finite (if z then 1 else 0)) = true := h2
            exact PyNum.eqb_trans h1 h2
          | num z =>
            replace h2 : PyNum.eqb y z = true := h2
            exact PyNum.eqb_trans h1 h2
          | none => exact Bool.noConfusion h2
          | str t => exact Bool.noConfusion h2
          | list zs => exact Bool.noConfusion h2
          | dict kvs => exact Bool.noConfusion h2
        | none => exact Bool.noConfusion h1
        | str t => exact Bool.noConfusion h1
        | list ys => exact Bool.noConfusion h1
        | dict kvs => exact Bool.noConfusion h1
      | str s =>
        cases b with
        | str t =>
          replace h1 : s = t := by simpa [pyEqb] using h1
          subst h1
          exact h2
        | none => exact Bool.noConfusion h1
        | bool y => exact Bool.noConfusion h1
        | num y => exact Bool.noConfusion h1
        | list ys => exact Bool.noConfusion h1
        | dict kvs => exact Bool.noConfusion h1
      | list xs =>
        cases b with
        | list ys =>
          cases c with
          | list zs =>
            replace h1 : pyEqbList xs ys = true := h1
            replace h2 : pyEqbList ys zs = true := h2
            show pyEqbList xs zs = true
            refine pyEqbList_trans_aux ?_ ys zs h1 h2
            intro x hx y z
            refine ih (sizeOf x) ?_ x le_rfl y z
            have := List.sizeOf_lt_of_mem hx
            simp only [PyVal.list.sizeOf_spec] at hsz
            omega
          | none => exact Bool.noConfusion h2
          | bool z => exact Bool.noConfusion h2
          | num z => exact Bool.noConfusion h2
          | str t => exact Bool.noConfusion h2
          | dict kvs => exact Bool.noConfusion h2
        | none => exact Bool.noConfusion h1
        | bool y => exact Bool.noConfusion h1
        | num y => exact Bool.noConfusion h1
        | str t => exact Bool.noConfusion h1
        | dict kvs => exact Bool.noConfusion h1
      | dict kvs =>
        cases b with
        | dict kvs2 =>
          cases c with
          | dict kvs3 =>
            replace h1 : pyEqbPairs kvs kvs2 = true := h1
            replace h2 : pyEqbPairs kvs2 kvs3 = true := h2
            show pyEqbPairs kvs kvs3 = true
            refine pyEqbPairs_trans_aux ?_ kvs2 kvs3 h1 h2
            intro p hp
            have hlt := List.sizeOf_lt_of_mem hp
            obtain ⟨p1, p2⟩ := p
            simp only [PyVal.dict.sizeOf_spec] at hsz
            simp only [Prod.mk.sizeOf_spec] at hlt
            constructor
            · intro y z
              refine ih (sizeOf p1) ?_ p1 le_rfl y z
              omega
            · intro y z
              refine ih (sizeOf p2) ?_ p2 le_rfl y z
              omega
          | none => exact Bool.noConfusion h2
          | bool z => exact Bool.noConfusion h2
          | num z => exact Bool.noConfusion h2
          | str t => exact Bool.noConfusion h2
          | list zs => exact Bool.noConfusion h2
        | none => exact Bool.noConfusion h1
        | bool y => exact Bool.noConfusion h1
        | num y => exact Bool.noConfusion h1
        | str t => exact Bool.noConfusion h1
        | list ys => exact Bool.noConfusion h1
  exact fun a b c => main (sizeOf a) a le_rfl b c

/-! ## Association-list dictionary algebra -/

/-- All keys of a dict are pairwise distinct under Python `==` — the invariant
every dict built through `dictInsert` satisfies. -/
def wfDict (m : List (PyVal × PyVal)) : Prop :=
  m.Pairwise (fun p q => pyEqb p.1 q.1 = false)

theorem dictUpdate_cons (acc : List (PyVal × PyVal)) (p : PyVal × PyVal)
    (rest : List (PyVal × PyVal)) :
    dictUpdate acc (p :: rest) = dictUpdate (dictInsert acc p.1 p.2) rest := rfl

theorem dictUpdate_append (acc l1 l2 : List (PyVal × PyVal)) :
    dictUpdate acc (l1 ++ l2) = dictUpdate (dictUpdate acc l1) l2 :=
  List.foldl_append _ _ _ _

theorem dictLookup_eq_none_iff {m : List (PyVal × PyVal)} {k : PyVal} :
    dictLookup m k = Option.none ↔ ∀ p ∈ m, pyEqb p.1 k = false := by
  induction m with
  | nil => simp [dictLookup]
  | cons p rest ih =>
    simp only [dictLookup]
    cases hr : dictLookup rest k with
    | some v =>
      constructor
      · intro h; exact Option.noConfusion h
      · intro h
        have := ih.mpr (fun q hq => h q (List.mem_cons_of_mem _ hq))
        rw [hr] at this
        exact Option.noConfusion this
    | none =>
      by_cases hpk : pyEqb p.1 k = true
      · rw [if_pos hpk]
        constructor
        · intro h; exact Option.noConfusion h
        · intro h
          rw [h p (List.mem_cons_self _ _)] at hpk
          exact Bool.noConfusion hpk
      · rw [if_neg hpk]
        simp only [true_iff]
        intro q hq
        rcases List.mem_cons.mp hq with hq | hq
        · subst hq
          simpa using hpk
        · exact ih.mp hr q hq

theorem dictLookup_isSome_iff {m : List (PyVal × PyVal)} {k : PyVal} :
    (dictLookup m k).isSome = true ↔ ∃ p ∈ m, pyEqb p.1 k = true := by
  constructor
  · intro h
    by_contra hc
    push_neg at hc
    have hall : ∀ p ∈ m, pyEqb p.1 k = false := by
      intro p hp
      cases hb : pyEqb p.1 k with
      | false => rfl
      | true => exact absurd hb (hc p hp)
    rw [dictLookup_eq_none_iff.mpr hall] at h
    exact Bool.noConfusion h
  · rintro ⟨p, hp, hpk⟩
    cases hl : dictLookup m k with
    | some v => rfl
    | none =>
      rw [dictLookup_eq_none_iff.mp hl p hp] at hpk
      exact Bool.noConfusion hpk

theorem map_replace_id {m : List (PyVal × PyVal)} {k v : PyVal}
    (h : ∀ p ∈ m, pyEqb p.1 k = false) :
    m.map (fun p => if pyEqb p.1 k then (p.1, v) else p) = m := by
  induction m with
  | nil => rfl
  | cons p rest ih =>
    have hp := h p (List.mem_cons_self _ _)
    rw [List.map_cons, if_neg (by simp [hp]),
      ih (fun q hq => h q (List.mem_cons_of_mem _ hq))]

theorem dictLookup_isSome_cons (p : PyVal × PyVal) (rest : List (PyVal × PyVal))
    (k : PyVal) :
    (dictLookup (p :: rest) k).isSome =
      ((dictLookup rest k).isSome || pyEqb p.1 k) := by
  simp only [dictLookup]
  cases hr : dictLookup rest k with
  | some v => rfl
  | none =>
    by_cases hpk : pyEqb p.1 k = true
    · rw [if_pos hpk, hpk]; rfl
    · rw [if_neg hpk]
      cases hb : pyEqb p.1 k with
      | false => rfl
      | true => exact absurd hb hpk

theorem dictLookup_isSome_congr {X Y : List (PyVal × PyVal)} {q : PyVal}
    (h : List.Forall₂ (fun a b : PyVal × PyVal => a.1 = b.1) X Y) :
    (dictLookup X q).isSome = (dictLookup Y q).isSome := by
  induction h with
  | nil => rfl
  | cons hab htail ih =>
    rename_i a b as bs
    rw [dictLookup_isSome_cons, dictLookup_isSome_cons, ih, hab]

/-- Relating two dicts that agree on keys and on all values except at keys
`==`-equal to `k`, where the left side already holds `v`. -/
def KeyVar (k v : PyVal) : List (PyVal × PyVal) → List (PyVal × PyVal) → Prop :=
  List.Forall₂ (fun a b : PyVal × PyVal => a.1 = b.1 ∧
    ((pyEqb a.1 k = false ∧ a.2 = b.2) ∨ (pyEqb a.1 k = true ∧ a.2 = v)))

theorem KeyVar_keys {k v : PyVal} {X Y : List (PyVal × PyVal)}
    (h : KeyVar k v X Y) :
    List.Forall₂ (fun a b : PyVal × PyVal => a.1 = b.1) X Y :=
  List.Forall₂.imp (fun a b hab => hab.1) h

theorem KeyVar_start {k v w p1 : PyVal} (hpk : pyEqb p1 k = true)
    (acc : List (PyVal × PyVal)) :
    KeyVar k v (dictInsert acc p1 v) (dictInsert acc p1 w) := by
  have hkey : ∀ a : PyVal × PyVal, pyEqb a.1 p1 = true → pyEqb a.1 k = true :=
    fun a ha => pyEqb_trans a.1 p1 k ha hpk
  have hkey2 : ∀ a : PyVal × PyVal, pyEqb a.1 p1 = false → pyEqb a.1 k = false := by
    intro a ha
    cases hb : pyEqb a.1 k with
    | false => rfl
    | true =>
      have := pyEqb_trans a.1 k p1 hb (pyEqb_symm p1 k ▸ hpk)
      rw [ha] at this
      exact Bool.noConfusion this
  unfold dictInsert
  by_cases hs : (dictLookup acc p1).isSome = true
  · rw [if_pos hs, if_pos hs]
    clear hs
    induction acc with
    | nil => exact List.Forall₂.nil
    | cons a rest ih =>
      rw [List.map_cons, List.map_cons]
      refine List.Forall₂.cons ?_ ih
      by_cases hap : pyEqb a.1 p1 = true
      · rw [if_pos hap, if_pos hap]
        exact ⟨rfl, Or.inr ⟨hkey a hap, rfl⟩⟩
      · rw [if_neg hap, if_neg hap]
        refine ⟨rfl, Or.inl ⟨?_, rfl⟩⟩
        cases hb : pyEqb a.1 p1 with
        | false => exact hkey2 a hb
        | true => exact absurd hb hap
  · rw [if_neg hs, if_neg hs]
    have hnone : dictLookup acc p1 = Option.none := by
      cases hl : dictLookup acc p1 with
      | none => rfl
      | some u => rw [hl] at hs; exact absurd rfl hs
    have hall := dictLookup_eq_none_iff.mp hnone
    refine List.rel_append ?_ ?_
    · rw [List.forall₂_same]
      intro a ha
      exact ⟨rfl, Or.inl ⟨hkey2 a (hall a ha), rfl⟩⟩
    · exact List.Forall₂.cons ⟨rfl, Or.inr ⟨hpk, rfl⟩⟩ List.Forall₂.nil

theorem KeyVar_dictInsert {k v : PyVal} {X Y : List (PyVal × PyVal)}
    {q w : PyVal} (hq : pyEqb q k = false) (h : KeyVar k v X Y) :
    KeyVar k v (dictInsert X q w) (dictInsert Y q w) := by
  have hnotk : ∀ a : PyVal × PyVal, pyEqb a.1 q = true → pyEqb a.1 k = false := by
    intro a ha
    cases hb : pyEqb a.1 k with
    | false => rfl
    | true =>
      have := pyEqb_trans q a.1 k (pyEqb_symm a.1 q ▸ ha) hb
      rw [hq] at this
      exact Bool.noConfusion this
  have hsome := dictLookup_isSome_congr (KeyVar_keys h) (q := q)
  unfold dictInsert
  rw [hsome]
  by_cases hY : (dictLookup Y q).isSome = true
  · rw [if_pos hY, if_pos hY]
    clear hY hsome
    induction h with
    | nil => exact List.Forall₂.nil
    | cons hab htail ih =>
      rename_i a b as bs
      rw [List.map_cons, List.map_cons]
      refine List.Forall₂.cons ?_ ih
      obtain ⟨hk1, hval⟩ := hab
      by_cases haq : pyEqb a.1 q = true
      · rw [if_pos haq, if_pos (hk1 ▸ haq)]
        exact ⟨hk1, Or.inl ⟨hnotk a haq, rfl⟩⟩
      · rw [if_neg haq, if_neg (hk1 ▸ haq)]
        exact ⟨hk1, hval⟩
  · rw [if_neg hY, if_neg hY]
    exact List.rel_append h
      (List.Forall₂.cons ⟨rfl, Or.inl ⟨hq, rfl⟩⟩ List.Forall₂.nil)

theorem KeyVar_dictUpdate {k v : PyVal} {L X Y : List (PyVal × PyVal)}
    (hL : ∀ q ∈ L, pyEqb q.1 k = false) (h : KeyVar k v X Y) :
    KeyVar k v (dictUpdate X L) (dictUpdate Y L) := by
  induction L generalizing X Y with
  | nil => exact h
  | cons q L ih =>
    rw [dictUpdate_cons, dictUpdate_cons]
    exact ih (fun r hr => hL r (List.mem_cons_of_mem _ hr))
      (KeyVar_dictInsert (hL q (List.mem_cons_self _ _)) h)

theorem KeyVar_finish {k v : PyVal} {X Y : List (PyVal × PyVal)}
    (h : KeyVar k v X Y) (hex : (dictLookup Y k).isSome = true) :
    dictInsert Y k v = X := by
  unfold dictInsert
  rw [if_pos hex]
  clear hex
  induction h with
  | nil => rfl
  | cons hab htail ih =>
    rename_i a b as bs
    rw [List.map_cons, ih]
    obtain ⟨hk1, hval⟩ := hab
    by_cases hbk : pyEqb b.1 k = true
    · rw [if_pos hbk]
      rcases hval with ⟨hfalse, _⟩ | ⟨_, hv⟩
      · rw [hk1] at hfalse
        rw [hfalse] at hbk
        exact Bool.noConfusion hbk
      · obtain ⟨a1, a2⟩ := a
        simp only at hk1 hv
        rw [hk1, hv]
    · rw [if_neg hbk]
      rcases hval with ⟨_, hv⟩ | ⟨htrue, _⟩
      · obtain ⟨a1, a2⟩ := a
        obtain ⟨b1, b2⟩ := b
        simp only at hk1 hv
        rw [hk1, hv]
      · rw [hk1] at htrue
        exact absurd htrue hbk

/-- Some entry of the dict has a key `==`-equal to `k`. -/
def hasMatch (m : List (PyVal × PyVal)) (k : PyVal) : Prop :=
  ∃ p ∈ m, pyEqb p.1 k = true

theorem hasMatch_dictInsert_of_eq {p1 k : PyVal} (hpk : pyEqb p1 k = true)
    (acc : List (PyVal × PyVal)) (w : PyVal) :
    hasMatch (dictInsert acc p1 w) k := by
  unfold dictInsert
  by_cases hs : (dictLookup acc p1).isSome = true
  · rw [if_pos hs]
    obtain ⟨a, ha, hap⟩ := dictLookup_isSome_iff.mp hs
    refine ⟨(a.1, w), ?_, pyEqb_trans a.1 p1 k hap hpk⟩
    have : (fun p : PyVal × PyVal => if pyEqb p.1 p1 then (p.1, w) else p) a
        = (a.1, w) := by simp [hap]
    exact this ▸ List.mem_map_of_mem _ ha
  · rw [if_neg hs]
    exact ⟨(p1, w), List.mem_append_right _ (List.mem_singleton.mpr rfl), hpk⟩

theorem hasMatch_dictInsert_mono {k : PyVal} {Y : List (PyVal × PyVal)}
    (h : hasMatch Y k) (q w : PyVal) : hasMatch (dictInsert Y q w) k := by
  obtain ⟨b, hb, hbk⟩ := h
  unfold dictInsert
  by_cases hs : (dictLookup Y q).isSome = true
  · rw [if_pos hs]
    by_cases hbq : pyEqb b.1 q = true
    · refine ⟨(b.1, w), ?_, hbk⟩
      have : (fun p : PyVal × PyVal => if pyEqb p.1 q then (p.1, w) else p) b
          = (b.1, w) := by simp [hbq]
      exact this ▸ List.mem_map_of_mem _ hb
    · refine ⟨b, ?_, hbk⟩
      have : (fun p : PyVal × PyVal => if pyEqb p.1 q then (p.1, w) else p) b
          = b := by simp [hbq]
      exact this ▸ List.mem_map_of_mem _ hb
  · rw [if_neg hs]
    exact ⟨b, List.mem_append_left _ hb, hbk⟩

theorem hasMatch_dictUpdate_mono {k : PyVal} {Y : List (PyVal × PyVal)}
    (h : hasMatch Y k) (L : List (PyVal × PyVal)) :
    hasMatch (dictUpdate Y L) k := by
  induction L generalizing Y with
  | nil => exact h
  | cons q L ih =>
    rw [dictUpdate_cons]
    exact ih (hasMatch_dictInsert_mono h q.1 q.2)

/-- Key exchange between `dict.update` and a later assignment: updating `acc`
with a well-formed dict that already contains `k` is the same as updating with
the dict before its `k`-assignment and assigning afterwards. -/
theorem dictUpdate_dictInsert {m : List (PyVal × PyVal)} (hwf : wfDict m)
    (acc : List (PyVal × PyVal)) (k v : PyVal) :
    dictUpdate acc (dictInsert m k v) = dictInsert (dictUpdate acc m) k v := by
  induction m generalizing acc with
  | nil => rfl
  | cons p m' ih =>
    have hwf' : wfDict m' := (List.pairwise_cons.mp hwf).2
    have hpm : ∀ q ∈ m', pyEqb p.1 q.1 = false := (List.pairwise_cons.mp hwf).1
    by_cases hs : (dictLookup (p :: m') k).isSome = true
    · cases hm : dictLookup m' k with
      | some u =>
        have hm's : (dictLookup m' k).isSome = true := by rw [hm]; rfl
        obtain ⟨q, hqmem, hqk⟩ := dictLookup_isSome_iff.mp hm's
        have hpk : pyEqb p.1 k = false := by
          cases hb : pyEqb p.1 k with
          | false => rfl
          | true =>
            have := pyEqb_trans p.1 k q.1 hb (pyEqb_symm q.1 k ▸ hqk)
            rw [hpm q hqmem] at this
            exact Bool.noConfusion this
        have hins : dictInsert (p :: m') k v = p :: dictInsert m' k v := by
          unfold dictInsert
          rw [if_pos hs, if_pos hm's, List.map_cons, if_neg (by simp [hpk])]
        rw [hins, dictUpdate_cons, dictUpdate_cons, ih hwf']
      | none =>
        have hpk : pyEqb p.1 k = true := by
          cases hb : pyEqb p.1 k with
          | true => rfl
          | false =>
            have : dictLookup (p :: m') k = Option.none := by
              simp only [dictLookup, hm, hb]
              rfl
            rw [this] at hs
            exact Bool.noConfusion hs
        have hm'keys : ∀ q ∈ m', pyEqb q.1 k = false :=
          dictLookup_eq_none_iff.mp hm
        have hins : dictInsert (p :: m') k v = (p.1, v) :: m' := by
          unfold dictInsert
          rw [if_pos hs, List.map_cons, if_pos (by simp [hpk]),
            map_replace_id hm'keys]
        rw [hins]
        have hcons1 : dictUpdate acc ((p.1, v) :: m')
            = dictUpdate (dictInsert acc p.1 v) m' := dictUpdate_cons _ _ _
        have hcons2 : dictUpdate acc (p :: m')
            = dictUpdate (dictInsert acc p.1 p.2) m' := dictUpdate_cons _ _ _
        rw [hcons1, hcons2]
        have hKV0 : KeyVar k v (dictInsert acc p.1 v) (dictInsert acc p.1 p.2) :=
          KeyVar_start hpk acc
        have hKV1 := KeyVar_dictUpdate hm'keys hKV0
        have hmatch1 := hasMatch_dictUpdate_mono
          (hasMatch_dictInsert_of_eq hpk acc p.2) m'
        exact (KeyVar_finish hKV1 (dictLookup_isSome_iff.mpr hmatch1)).symm
    · have hins : dictInsert (p :: m') k v = (p :: m') ++ [(k, v)] := by
        unfold dictInsert
        rw [if_neg hs]
      rw [hins, dictUpdate_append]
      rfl

/-! ## C3: the Rootfi revenue metric and the recursive breakdown -/

/-- Spec side: the `value` entry of a top-level line item (default `0.0`);
only dict items carry one (the parser faults on any other item). -/
def RF.specTopValue (item : PyVal) : PyVal :=
  match item with
  | .dict kvs => (dictLookup kvs (.str "value")).getD (.num (.finite 0))
  | _ => .none

/-- Spec side: a value read as a number the way Python `+` coerces it. -/
def RF.specNumOf (v : PyVal) : PyNum :=
  match v with
  | .num x => x
  | .bool b => .finite (if b then 1 else 0)
  | _ => .nan

/-- Spec side: the sum of the top-level items' `value`s; nested `line_items`
descendants contribute nothing. -/
def RF.specTopLevelSum (xs : List PyVal) : PyNum :=
  xs.foldl (fun acc it => PyNum.add acc (RF.specNumOf (RF.specTopValue it))) (.finite 0)

theorem RF.sum_spec_aux {xs : List PyVal} :
    ∀ {acc s : PyNum},
      xs.foldlM (fun acc item => do
        let vv ← pyGetD item "value" (.num (.finite 0))
        pyAddNum acc vv) acc = .ok s →
      s = xs.foldl (fun a it => PyNum.add a (RF.specNumOf (RF.specTopValue it))) acc := by
  induction xs with
  | nil =>
    intro acc s h
    simp only [List.foldlM_nil, pure, Except.pure] at h
    cases h
    rfl
  | cons item rest ih =>
    intro acc s h
    rw [List.foldlM_cons] at h
    obtain ⟨a1, hstep, hrest⟩ := bind_ok_inv h
    obtain ⟨vv, hget, hadd⟩ := bind_ok_inv hstep
    cases item with
    | dict kvs =>
      replace hget : Except.ok ((dictLookup kvs (.str "value")).getD (.num (.finite 0)))
          = Except.ok vv := hget
      injection hget with hget
      have hTV : RF.specTopValue (.dict kvs) = vv := hget
      have hstep2 : PyNum.add acc (RF.specNumOf (RF.specTopValue (.dict kvs))) = a1 := by
        rw [hTV]
        cases vv with
        | num x =>
          replace hadd : Except.ok (PyNum.add acc x) = Except.ok a1 := hadd
          injection hadd with hadd
        | bool b =>
          replace hadd : Except.ok (PyNum.add acc (.finite (if b then 1 else 0)))
              = Except.ok a1 := hadd
          injection hadd with hadd
        | none => exact Except.noConfusion hadd
        | str t => exact Except.noConfusion hadd
        | list ys => exact Except.noConfusion hadd
        | dict kvs2 => exact Except.noConfusion hadd
      rw [List.foldl_cons, hstep2]
      exact ih hrest
    | none => exact Except.noConfusion hget
    | bool b => exact Except.noConfusion hget
    | num x => exact Except.noConfusion hget
    | str t => exact Except.noConfusion hget
    | list ys => exact Except.noConfusion hget

/-- A successful `_sum_line_items` on a list computes exactly the spec's
top-level sum. -/
theorem RF.sum_line_items_top_level {xs : List PyVal} {s : PyNum}
    (h : RF.sum_line_items (.list xs) = .ok s) : s = RF.specTopLevelSum xs := by
  unfold RF.sum_line_items at h
  obtain ⟨items, hit, hfold⟩ := bind_ok_inv h
  replace hit : Except.ok xs = Except.ok items := hit
  injection hit with hit
  subst hit
  exact RF.sum_spec_aux hfold

/-- Spec side: the child item list of one line item (`line_items` when it is a
list, else nothing). -/
def RF.childItems (kvs : List (PyVal × PyVal)) : List PyVal :=
  match dictLookup kvs (.str "line_items") with
  | some (.list xs) => xs
  | _ => []

theorem RF.childItems_sizeOf (kvs : List (PyVal × PyVal)) :
    sizeOf (RF.childItems kvs) ≤ sizeOf kvs := by
  unfold RF.childItems
  split
  · rename_i xs h
    have h1 : sizeOf (PyVal.list xs) < sizeOf kvs := dictLookup_sizeOf h
    simp only [PyVal.list.sizeOf_spec] at h1
    omega
  · cases kvs with
    | nil => simp
    | cons p rest =>
      simp only [List.cons.sizeOf_spec, List.nil.sizeOf_spec]
      have : 0 < sizeOf p := by
        obtain ⟨a, b⟩ := p
        simp only [Prod.mk.sizeOf_spec]
        omega
      omega

/-- Spec side: preorder flattening of a line-item tree into its (name, value)
contributions: each item first, then its descendants, then its right
siblings.  Items the extraction faults on contribute an unspecified (empty)
flattening. -/
def RF.flattenItems : List PyVal → List (PyVal × PyVal)
  | [] => []
  | .dict kvs :: rest =>
    ((dictLookup kvs (.str "name")).getD (.str "Unknown"),
     (dictLookup kvs (.str "value")).getD (.num (.finite 0))) ::
    (RF.flattenItems (RF.childItems kvs) ++ RF.flattenItems rest)
  | _ :: _ => []
termination_by l => sizeOf l
decreasing_by
  all_goals simp_wf
  · have := RF.childItems_sizeOf kvs
    have hk : 0 < sizeOf kvs := by
      cases kvs <;> simp
    omega

theorem RF.flattenItems_nil : RF.flattenItems [] = [] := by
  rw [RF.flattenItems.eq_def]

theorem RF.flattenItems_cons_dict (kvs : List (PyVal × PyVal)) (rest : List PyVal) :
    RF.flattenItems (.dict kvs :: rest) =
      ((dictLookup kvs (.str "name")).getD (.str "Unknown"),
       (dictLookup kvs (.str "value")).getD (.num (.finite 0))) ::
      (RF.flattenItems (RF.childItems kvs) ++ RF.flattenItems rest) := by
  rw [RF.flattenItems.eq_def]

/-- Spec side: replay one (name, value) contribution into the breakdown:
zero values are skipped, others assigned under their name (overwriting). -/
def RF.replayStep (m : List (PyVal × PyVal)) (p : PyVal × PyVal) :
    List (PyVal × PyVal) :=
  if pyEqb p.2 (.num (.finite 0)) then m else dictInsert m p.1 p.2

/-- Spec side: replay a list of contributions in order. -/
def RF.replayFold (m : List (PyVal × PyVal)) (l : List (PyVal × PyVal)) :
    List (PyVal × PyVal) :=
  l.foldl RF.replayStep m

theorem RF.replayFold_cons (m : List (PyVal × PyVal)) (p : PyVal × PyVal)
    (l : List (PyVal × PyVal)) :
    RF.replayFold m (p :: l) = RF.replayFold (RF.replayStep m p) l := rfl

theorem RF.replayFold_append (m : List (PyVal × PyVal))
    (l1 l2 : List (PyVal × PyVal)) :
    RF.replayFold m (l1 ++ l2) = RF.replayFold (RF.replayFold m l1) l2 :=
  List.foldl_append _ _ _ _

theorem wfDict_dictInsert {m : List (PyVal × PyVal)} (hwf : wfDict m)
    (k v : PyVal) : wfDict (dictInsert m k v) := by
  unfold dictInsert
  by_cases hs : (dictLookup m k).isSome = true
  · rw [if_pos hs]
    rw [wfDict, List.pairwise_map]
    refine hwf.imp ?_
    intro a b hab
    have ha : ((if pyEqb a.1 k then (a.1, v) else a) : PyVal × PyVal).1 = a.1 := by
      by_cases h : pyEqb a.1 k = true <;> simp [h]
    have hb : ((if pyEqb b.1 k then (b.1, v) else b) : PyVal × PyVal).1 = b.1 := by
      by_cases h : pyEqb b.1 k = true <;> simp [h]
    simpa [ha, hb] using hab
  · rw [if_neg hs]
    have hnone : dictLookup m k = Option.none := by
      cases hl : dictLookup m k with
      | none => rfl
      | some u => rw [hl] at hs; exact absurd rfl hs
    have hall := dictLookup_eq_none_iff.mp hnone
    rw [wfDict, List.pairwise_append]
    refine ⟨hwf, List.pairwise_singleton _ _, ?_⟩
    intro a ha b hb
    rw [List.mem_singleton.mp hb]
    exact hall a ha

theorem wfDict_replayFold {L : List (PyVal × PyVal)} :
    ∀ {m : List (PyVal × PyVal)}, wfDict m → wfDict (RF.replayFold m L) := by
  induction L with
  | nil => intro m hm; exact hm
  | cons p L ih =>
    intro m hm
    rw [RF.replayFold_cons]
    refine ih ?_
    unfold RF.replayStep
    by_cases hz : pyEqb p.2 (.num (.finite 0)) = true
    · rw [if_pos hz]; exact hm
    · rw [if_neg hz]; exact wfDict_dictInsert hm p.1 p.2

theorem RF.replayFold_update_aux {L : List (PyVal × PyVal)} :
    ∀ {m : List (PyVal × PyVal)}, wfDict m → ∀ acc,
      dictUpdate acc (RF.replayFold m L) = RF.replayFold (dictUpdate acc m) L := by
  induction L with
  | nil => intro m _ acc; rfl
  | cons p L ih =>
    intro m hm acc
    rw [RF.replayFold_cons, RF.replayFold_cons]
    have hstep : wfDict (RF.replayStep m p) := by
      unfold RF.replayStep
      by_cases hz : pyEqb p.2 (.num (.finite 0)) = true
      · rw [if_pos hz]; exact hm
      · rw [if_neg hz]; exact wfDict_dictInsert hm p.1 p.2
    rw [ih hstep acc]
    congr 1
    unfold RF.replayStep
    by_cases hz : pyEqb p.2 (.num (.finite 0)) = true
    · rw [if_pos hz, if_pos hz]
    · rw [if_neg hz, if_neg hz]
      exact dictUpdate_dictInsert hm acc p.1 p.2

/-- Replaying contributions on top of `acc` is updating `acc` with the dict
they build from scratch. -/
theorem RF.replayFold_update (acc L : List (PyVal × PyVal)) :
    RF.replayFold acc L = dictUpdate acc (RF.replayFold [] L) := by
  have := RF.replayFold_update_aux (List.Pairwise.nil) acc (L := L) (m := [])
  simpa [dictUpdate] using this.symm

theorem RF.childItems_of_list {kvs : List (PyVal × PyVal)} {xs : List PyVal}
    (h : dictLookup kvs (.str "line_items") = some (.list xs)) :
    RF.childItems kvs = xs := by
  unfold RF.childItems
  rw [h]

theorem RF.flatten_childItems_nil {kvs : List (PyVal × PyVal)}
    (hc : ∀ xs : List PyVal, dictLookup kvs (.str "line_items") = some (.list xs) → xs = []) :
    RF.flattenItems (RF.childItems kvs) = [] := by
  unfold RF.childItems
  cases h : dictLookup kvs (.str "line_items") with
  | none => exact RF.flattenItems_nil
  | some v =>
    cases v with
    | list xs =>
      rw [hc xs h]
      exact RF.flattenItems_nil
    | none => exact RF.flattenItems_nil
    | bool b => exact RF.flattenItems_nil
    | num x => exact RF.flattenItems_nil
    | str t => exact RF.flattenItems_nil
    | dict kvs2 => exact RF.flattenItems_nil

/-- Complete inversion of one dict step of the breakdown loop: either the item
carries a (truthy) `line_items` list, flattened recursively and merged, or it
carries no nonempty `line_items` list at all and only its own (name, value)
contributes. -/
theorem RF.ebi_cons_dict_cases {acc kvs rest out}
    (h : RF.extract_breakdown_items acc (.dict kvs :: rest) = .ok out) :
    (∃ xs sub, dictLookup kvs (.str "line_items") = some (.list xs) ∧
      RF.extract_breakdown_items [] xs = .ok sub ∧
      RF.extract_breakdown_items (dictUpdate (RF.acc1Of acc kvs) sub) rest = .ok out) ∨
    ((∀ xs : List PyVal, dictLookup kvs (.str "line_items") = some (.list xs) → xs = []) ∧
      RF.extract_breakdown_items (RF.acc1Of acc kvs) rest = .ok out) := by
  rw [RF.extract_breakdown_items.eq_def] at h
  split at h
  next heq => exact absurd heq (by simp)
  next x1 x2 item2 rest2 heq =>
    injection heq with he1 he2
    subst he1
    subst he2
    split at h
    next kvs2 heq2 =>
      injection heq2 with hk
      subst hk
      split at h
      next li hlk =>
        split at h
        next htr =>
          split at h
          next =>
            rename_i xs
            obtain ⟨sub, hs1, hs2⟩ := bind_ok_inv h
            exact Or.inl ⟨xs, sub, hlk, hs1, hs2⟩
          next => exfalso; revert h; simp
          next => exfalso; revert h; simp
          next => exfalso; revert h; simp
        next hnt =>
          refine Or.inr ⟨?_, h⟩
          intro xs hxs
          rw [hlk] at hxs
          injection hxs with hli
          subst hli
          simpa [pyTruthy] using hnt
      next hlk =>
        refine Or.inr ⟨?_, h⟩
        intro xs hxs
        rw [hlk] at hxs
        exact Option.noConfusion hxs
    next hne => exact absurd rfl (hne kvs)

/-- The breakdown loop computes exactly the replay of the preorder
flattening: each contribution in preorder, zero values skipped, later and
deeper names overwriting earlier ones. -/
theorem RF.ebi_replay :
    ∀ (n : Nat) (items : List PyVal) (acc bd : List (PyVal × PyVal)),
      sizeOf items ≤ n →
      RF.extract_breakdown_items acc items = .ok bd →
      bd = RF.replayFold acc (RF.flattenItems items) := by
  intro n
  induction n using Nat.strong_induction_on with
  | _ n ih =>
    intro items acc bd hsz h
    cases items with
    | nil =>
      rw [RF.extract_breakdown_items.eq_def] at h
      cases h
      rw [RF.flattenItems_nil]
      rfl
    | cons item rest =>
      cases item with
      | dict kvs =>
        have hszr : sizeOf rest < n := by
          simp only [List.cons.sizeOf_spec] at hsz
          omega
        have hacc1 : RF.replayStep acc
            ((dictLookup kvs (.str "name")).getD (.str "Unknown"),
             (dictLookup kvs (.str "value")).getD (.num (.finite 0)))
            = RF.acc1Of acc kvs := rfl
        rcases RF.ebi_cons_dict_cases h with ⟨xs, sub, hlk, hs1, hs2⟩ | ⟨hc, hrec⟩
        · have hxs : sizeOf xs < n := by
            have h1 : sizeOf (PyVal.list xs) < sizeOf kvs := dictLookup_sizeOf hlk
            simp only [PyVal.list.sizeOf_spec] at h1
            simp only [List.cons.sizeOf_spec, PyVal.dict.sizeOf_spec] at hsz
            omega
          have hsub := ih (sizeOf xs) hxs xs [] sub le_rfl hs1
          have hrest := ih (sizeOf rest) hszr rest _ bd le_rfl hs2
          have hmid : RF.replayFold (RF.acc1Of acc kvs) (RF.flattenItems xs)
              = dictUpdate (RF.acc1Of acc kvs) sub := by
            rw [RF.replayFold_update, ← hsub]
          rw [RF.flattenItems_cons_dict, RF.childItems_of_list hlk,
            RF.replayFold_cons, RF.replayFold_append, hacc1, hmid]
          exact hrest
        · have hrest := ih (sizeOf rest) hszr rest _ bd le_rfl hrec
          rw [RF.flattenItems_cons_dict, RF.flatten_childItems_nil hc,
            RF.replayFold_cons, List.nil_append, hacc1]
          exact hrest
      | none =>
        obtain ⟨e, he⟩ := @RF.ebi_cons_nondict acc PyVal.none rest (fun kvs hk => by cases hk)
        rw [he] at h
        cases h
      | bool b =>
        obtain ⟨e, he⟩ := @RF.ebi_cons_nondict acc (PyVal.bool b) rest (fun kvs hk => by cases hk)
        rw [he] at h
        cases h
      | num x =>
        obtain ⟨e, he⟩ := @RF.ebi_cons_nondict acc (PyVal.num x) rest (fun kvs hk => by cases hk)
        rw [he] at h
        cases h
      | str s =>
        obtain ⟨e, he⟩ := @RF.ebi_cons_nondict acc (PyVal.str s) rest (fun kvs hk => by cases hk)
        rw [he] at h
        cases h
      | list xs =>
        obtain ⟨e, he⟩ := @RF.ebi_cons_nondict acc (PyVal.list xs) rest (fun kvs hk => by cases hk)
        rw [he] at h
        cases h

/-- A successful `_extract_breakdown` on a list replays the preorder
flattening from an empty dict. -/
theorem RF.extract_breakdown_replay {xs : List PyVal} {bd : List (PyVal × PyVal)}
    (h : RF.extract_breakdown (.list xs) = .ok bd) :
    bd = RF.replayFold [] (RF.flattenItems xs) := by
  unfold RF.extract_breakdown at h
  exact RF.ebi_replay (sizeOf xs) xs [] bd le_rfl h

theorem RF.transform_record_revenue {record : PyVal} {d : RecD}
    (h : RF.transform_record record = .ok d) :
    ∃ rv rev rb,
      pyGetD record "revenue" (.list []) = .ok rv ∧
      RF.sum_line_items rv = .ok rev ∧
      RF.extract_breakdown rv = .ok rb ∧
      recGet d "revenue" = some (.num rev) ∧
      recGet d "revenue_breakdown" = some (.dict rb) := by
  unfold RF.transform_record at h
  obtain ⟨ps, _, h⟩ := bind_ok_inv h
  obtain ⟨pe, _, h⟩ := bind_ok_inv h
  obtain ⟨rv, hrv, h⟩ := bind_ok_inv h
  obtain ⟨rev, hrev, h⟩ := bind_ok_inv h
  obtain ⟨cg, _, h⟩ := bind_ok_inv h
  obtain ⟨cogs, _, h⟩ := bind_ok_inv h
  obtain ⟨gp, _, h⟩ := bind_ok_inv h
  obtain ⟨ov, hov, h⟩ := bind_ok_inv h
  obtain ⟨opex, _, h⟩ := bind_ok_inv h
  obtain ⟨op, _, h⟩ := bind_ok_inv h
  obtain ⟨nrv, _, h⟩ := bind_ok_inv h
  obtain ⟨nor, _, h⟩ := bind_ok_inv h
  obtain ⟨nev, _, h⟩ := bind_ok_inv h
  obtain ⟨noe, _, h⟩ := bind_ok_inv h
  obtain ⟨np, _, h⟩ := bind_ok_inv h
  obtain ⟨rv2, hrv2, h⟩ := bind_ok_inv h
  obtain ⟨rb, hrb, h⟩ := bind_ok_inv h
  obtain ⟨ov2, hov2, h⟩ := bind_ok_inv h
  obtain ⟨eb, heb, h⟩ := bind_ok_inv h
  simp only [pure, Except.pure] at h
  cases h
  rw [hrv] at hrv2
  injection hrv2 with hrv2e
  subst hrv2e
  exact ⟨rv, rev, rb, hrv, hrev, hrb, rfl, rfl⟩

/-- C3: for every line-item document the Rootfi record transformer accepts,
the draft's `revenue` is exactly the sum of the *top-level* items' `value`s
(nested `line_items` excluded from the sum), and its `revenue_breakdown` is
exactly the preorder replay of every item and every nested descendant, keyed
by `name`, zero values skipped, with deeper/later colliding names
overwriting earlier ones. -/
theorem C3_top_level_sum_recursive_breakdown {record : PyVal} {d : RecD}
    {xs : List PyVal}
    (h : RF.transform_record record = .ok d)
    (hrv : pyGetD record "revenue" (.list []) = .ok (.list xs)) :
    ∃ s bd, recGet d "revenue" = some (.num s) ∧
      recGet d "revenue_breakdown" = some (.dict bd) ∧
      s = RF.specTopLevelSum xs ∧
      bd = RF.replayFold [] (RF.flattenItems xs) := by
  obtain ⟨rv, rev, rb, hget, hsum, hbd, hgr, hgb⟩ := RF.transform_record_revenue h
  rw [hget] at hrv
  injection hrv with hrve
  subst hrve
  exact ⟨rev, rb, hgr, hgb, RF.sum_line_items_top_level hsum,
    RF.extract_breakdown_replay hbd⟩

def C3items : List PyVal :=
  [.dict [(.str "name", .str "A"), (.str "value", .num (.finite 100)),
    (.str "line_items", .list [.dict [(.str "name", .str "B"),
      (.str "value", .num (.finite 40))]])]]

def C3doc : PyVal :=
  .dict [(.str "period_start", .str "2024-01-01"),
    (.str "period_end", .str "2024-01-31"),
    (.str "revenue", .list C3items)]

def C3draft : RecD :=
  [("period_start", .str "2024-01-01"), ("period_end", .str "2024-01-31"),
   ("source", .str "rootfi"),
   ("revenue", .num (.finite 100)), ("cost_of_goods_sold", .num (.finite 0)),
   ("gross_profit", .num (.finite 0)), ("operating_expenses", .num (.finite 0)),
   ("operating_profit", .num (.finite 0)),
   ("non_operating_revenue", .num (.finite 0)),
   ("non_operating_expenses", .num (.finite 0)), ("net_profit", .num (.finite 0)),
   ("revenue_breakdown", .dict [(.str "A", .num (.finite 100)),
     (.str "B", .num (.finite 40))]),
   ("expense_breakdown", .dict [])]

theorem except_bind_ok {ε α β : Type} (a : α) (k : α → Except ε β) :
    (Except.ok a >>= k) = k a := rfl

theorem C3_top_level_sum_recursive_breakdown_witness :
    ∃ s bd, recGet C3draft "revenue" = some (.num s) ∧
      recGet C3draft "revenue_breakdown" = some (.dict bd) ∧
      s = RF.specTopLevelSum C3items ∧
      bd = RF.replayFold [] (RF.flattenItems C3items) :=
  @C3_top_level_sum_recursive_breakdown C3doc C3draft C3items
    (by
      have h1 : RF.extract_breakdown (.list C3items)
          = Except.ok [(.str "A", .num (.finite 100)), (.str "B", .num (.finite 40))] := by
        simp [C3items, RF.extract_breakdown, RF.extract_breakdown_items,
          dictLookup, dictInsert, dictUpdate, pyEqb, PyNum.eqb, pyTruthy,
          bind, Except.bind]
      have h2 : RF.extract_breakdown (.list []) = Except.ok [] := by
        simp [RF.extract_breakdown, RF.extract_breakdown_items]
      have h3 : RF.sum_line_items (.list C3items) = Except.ok (PyNum.finite 100) := by
        simp [C3items, RF.sum_line_items, pyIter, pyGetD, dictLookup, pyAddNum,
          PyNum.add, pyEqb, PyNum.eqb, bind, Except.bind, pure, Except.pure]
      unfold RF.transform_record
      rw [show pySubscr C3doc "period_start" = Except.ok (PyVal.str "2024-01-01") from rfl,
        show pySubscr C3doc "period_end" = Except.ok (PyVal.str "2024-01-31") from rfl,
        show pyGetD C3doc "revenue" (.list []) = Except.ok (PyVal.list C3items) from rfl,
        show pyGetD C3doc "cost_of_goods_sold" (.list [])
          = Except.ok (PyVal.list []) from rfl,
        show pyGetD C3doc "gross_profit" (.num (.finite 0))
          = Except.ok (PyVal.num (PyNum.finite 0)) from rfl,
        show pyGetD C3doc "operating_expenses" (.list [])
          = Except.ok (PyVal.list []) from rfl,
        show pyGetD C3doc "operating_profit" (.num (.finite 0))
          = Except.ok (PyVal.num (PyNum.finite 0)) from rfl,
        show pyGetD C3doc "non_operating_revenue" (.list [])
          = Except.ok (PyVal.list []) from rfl,
        show pyGetD C3doc "non_operating_expenses" (.list [])
          = Except.ok (PyVal.list []) from rfl,
        show pyGetD C3doc "net_profit" (.num (.finite 0))
          = Except.ok (PyVal.num (PyNum.finite 0)) from rfl]
      rw [except_bind_ok]
      rw [except_bind_ok]
      rw [except_bind_ok]
      rw [h3, except_bind_ok]
      rw [except_bind_ok]
      rw [show RF.sum_line_items (.list []) = Except.ok (PyNum.finite 0) from rfl,
        except_bind_ok]
      rw [except_bind_ok]
      rw [except_bind_ok]
      rw [show RF.sum_line_items (.list []) = Except.ok (PyNum.finite 0) from rfl,
        except_bind_ok]
      rw [except_bind_ok]
      rw [except_bind_ok]
      rw [show RF.sum_line_items (.list []) = Except.ok (PyNum.finite 0) from rfl,
        except_bind_ok]
      rw [except_bind_ok]
      rw [show RF.sum_line_items (.list []) = Except.ok (PyNum.finite 0) from rfl,
        except_bind_ok]
      rw [except_bind_ok]
      rw [except_bind_ok]
      rw [h1, except_bind_ok]
      rw [except_bind_ok]
      rw [h2, except_bind_ok]
      rfl)
    (by rfl)

/-! ## C8: what the update branch overwrites -/

/-- The non-identity columns of the `financial_periods` model (the fields
`setattr` can persist). -/
def colKeys : List String :=
  ["revenue", "cost_of_goods_sold", "gross_profit", "operating_expenses",
   "operating_profit", "non_operating_revenue", "non_operating_expenses",
   "net_profit", "revenue_breakdown", "expense_breakdown", "currency",
   "raw_data"]

/-- Read a non-identity column off a row by key. -/
def getF (x : FinancialPeriod) (k : String) : PyVal :=
  if k = "revenue" then x.revenue
  else if k = "cost_of_goods_sold" then x.cost_of_goods_sold
  else if k = "gross_profit" then x.gross_profit
  else if k = "operating_expenses" then x.operating_expenses
  else if k = "operating_profit" then x.operating_profit
  else if k = "non_operating_revenue" then x.non_operating_revenue
  else if k = "non_operating_expenses" then x.non_operating_expenses
  else if k = "net_profit" then x.net_profit
  else if k = "revenue_breakdown" then x.revenue_breakdown
  else if k = "expense_breakdown" then x.expense_breakdown
  else if k = "currency" then x.currency
  else if k = "raw_data" then x.raw_data
  else .none

theorem getF_setField_same {k : String} (hk : k ∈ colKeys)
    (x : FinancialPeriod) (v : PyVal) : getF (setField x k v) k = v := by
  fin_cases hk <;> rfl

theorem setField_cases (x : FinancialPeriod) (j : String) (v : PyVal) :
    setField x j v = { x with
      revenue := if j = "revenue" then v else x.revenue,
      cost_of_goods_sold := if j = "cost_of_goods_sold" then v else x.cost_of_goods_sold,
      gross_profit := if j = "gross_profit" then v else x.gross_profit,
      operating_expenses := if j = "operating_expenses" then v else x.operating_expenses,
      operating_profit := if j = "operating_profit" then v else x.operating_profit,
      non_operating_revenue := if j = "non_operating_revenue" then v else x.non_operating_revenue,
      non_operating_expenses := if j = "non_operating_expenses" then v else x.non_operating_expenses,
      net_profit := if j = "net_profit" then v else x.net_profit,
      revenue_breakdown := if j = "revenue_breakdown" then v else x.revenue_breakdown,
      expense_breakdown := if j = "expense_breakdown" then v else x.expense_breakdown,
      currency := if j = "currency" then v else x.currency,
      raw_data := if j = "raw_data" then v else x.raw_data } := by
  unfold setField
  by_cases h1 : j = "revenue"
  · subst h1; simp
  simp only [if_neg h1]
  by_cases h2 : j = "cost_of_goods_sold"
  · subst h2; simp
  simp only [if_neg h2]
  by_cases h3 : j = "gross_profit"
  · subst h3; simp
  simp only [if_neg h3]
  by_cases h4 : j = "operating_expenses"
  · subst h4; simp
  simp only [if_neg h4]
  by_cases h5 : j = "operating_profit"
  · subst h5; simp
  simp only [if_neg h5]
  by_cases h6 : j = "non_operating_revenue"
  · subst h6; simp
  simp only [if_neg h6]
  by_cases h7 : j = "non_operating_expenses"
  · subst h7; simp
  simp only [if_neg h7]
  by_cases h8 : j = "net_profit"
  · subst h8; simp
  simp only [if_neg h8]
  by_cases h9 : j = "revenue_breakdown"
  · subst h9; simp
  simp only [if_neg h9]
  by_cases h10 : j = "expense_breakdown"
  · subst h10; simp
  simp only [if_neg h10]
  by_cases h11 : j = "currency"
  · subst h11; simp
  simp only [if_neg h11]
  by_cases h12 : j = "raw_data"
  · subst h12; simp
  simp only [if_neg h12]

theorem getF_setField_ne {j k : String} (hjk : j ≠ k) (hk : k ∈ colKeys)
    (x : FinancialPeriod) (v : PyVal) : getF (setField x j v) k = getF x k := by
  rw [setField_cases]
  fin_cases hk <;> simp [getF, hjk]

theorem setField_identity (x : FinancialPeriod) (j : String) (v : PyVal) :
    (setField x j v).period_start = x.period_start ∧
    (setField x j v).period_end = x.period_end ∧
    (setField x j v).source = x.source := by
  rw [setField_cases]
  exact ⟨rfl, rfl, rfl⟩

theorem colKeys_not_identity {k : String} (hk : k ∈ colKeys) :
    identityKeys.contains k = false := by
  fin_cases hk <;> rfl

theorem recGet_cons_some {j f : String} {w v : PyVal} {r : RecD}
    (h : recGet r f = some v) : recGet ((j, w) :: r) f = some v := by
  simp only [recGet, h]

theorem applyRec_identity (r : RecD) : ∀ x : FinancialPeriod,
    (applyRec x r).period_start = x.period_start ∧
    (applyRec x r).period_end = x.period_end ∧
    (applyRec x r).source = x.source := by
  induction r with
  | nil => intro x; exact ⟨rfl, rfl, rfl⟩
  | cons p r' ih =>
    intro x
    have hstep : applyRec x (p :: r')
        = applyRec (if identityKeys.contains p.1 then x else setField x p.1 p.2) r' := rfl
    rw [hstep]
    by_cases hid : identityKeys.contains p.1 = true
    · rw [if_pos hid]
      exact ih x
    · rw [if_neg hid]
      obtain ⟨h1, h2, h3⟩ := ih (setField x p.1 p.2)
      obtain ⟨s1, s2, s3⟩ := setField_identity x p.1 p.2
      exact ⟨h1.trans s1, h2.trans s2, h3.trans s3⟩

theorem applyRec_getF (r : RecD) : ∀ (x : FinancialPeriod) {k : String},
    k ∈ colKeys → getF (applyRec x r) k = (recGet r k).getD (getF x k) := by
  induction r with
  | nil => intro x k hk; rfl
  | cons p r' ih =>
    intro x k hk
    obtain ⟨j, w⟩ := p
    have hstep : applyRec x ((j, w) :: r')
        = applyRec (if identityKeys.contains j then x else setField x j w) r' := rfl
    rw [hstep, ih _ hk]
    cases hr : recGet r' k with
    | some v =>
      rw [recGet_cons_some hr]
      rfl
    | none =>
      have hc : recGet ((j, w) :: r') k = (if j = k then some w else Option.none) := by
        simp only [recGet, hr]
      rw [hc]
      by_cases hjk : j = k
      · subst hjk
        rw [if_pos rfl, if_neg (by rw [colKeys_not_identity hk]; exact Bool.false_ne_true)]
        exact getF_setField_same hk x w
      · rw [if_neg hjk]
        by_cases hid : identityKeys.contains j = true
        · rw [if_pos hid]
        · rw [if_neg hid]
          exact getF_setField_ne hjk hk x w

def C8r : RecD :=
  [("period_start", .str "2024-01-01"), ("period_end", .str "2024-01-31"),
   ("source", .str "quickbooks"), ("revenue", .num (.finite 7))]

def C8x1 : FinancialPeriod :=
  { period_start := ⟨2024, 1, 1⟩, period_end := ⟨2024, 1, 31⟩,
    source := .str "quickbooks", raw_data := .str "old1" }

def C8x2 : FinancialPeriod :=
  { period_start := ⟨2024, 1, 1⟩, period_end := ⟨2024, 1, 31⟩,
    source := .str "quickbooks", raw_data := .str "old2" }

/-- Counterexample to the literal C8: two stored rows with the same identity
but different `raw_data` stay different after the same draft is applied, so
the update is not a full replace of every non-identity field (`raw_data` is
set only on insert and never overwritten). -/
theorem C8_counterexample :
    C8x1.period_start = C8x2.period_start ∧
    C8x1.period_end = C8x2.period_end ∧
    C8x1.source = C8x2.source ∧
    applyRec C8x1 C8r ≠ applyRec C8x2 C8r := by
  refine ⟨rfl, rfl, rfl, ?_⟩
  intro h
  have h1 : (applyRec C8x1 C8r).raw_data = .str "old1" := rfl
  have h2 : (applyRec C8x2 C8r).raw_data = .str "old2" := rfl
  rw [h, h2] at h1
  injection h1 with h3
  exact absurd h3 (by decide)

/-- C8 (amended): the update branch of `_load_periods` overwrites exactly the
non-identity columns whose key occurs in the draft (the draft's last
occurrence winning) and leaves `period_start`/`period_end`/`source`
untouched; a column the draft does not mention — notably `raw_data`, which is
set only at insert time, and `currency` — keeps its previous value, so the
update is a per-present-key overwrite rather than a full replace. -/
theorem C8_amended_update_overwrites_draft_fields (x : FinancialPeriod) (r : RecD) :
    (applyRec x r).period_start = x.period_start ∧
    (applyRec x r).period_end = x.period_end ∧
    (applyRec x r).source = x.source ∧
    (∀ k ∈ colKeys, getF (applyRec x r) k = (recGet r k).getD (getF x k)) :=
  ⟨(applyRec_identity r x).1, (applyRec_identity r x).2.1,
   (applyRec_identity r x).2.2, fun k hk => applyRec_getF r x hk⟩

theorem C8_amended_update_overwrites_draft_fields_witness :
    getF (applyRec C8x1 C8r) "revenue"
      = (recGet C8r "revenue").getD (getF C8x1 "revenue") ∧
    getF (applyRec C8x1 C8r) "raw_data"
      = (recGet C8r "raw_data").getD (getF C8x1 "raw_data") ∧
    (applyRec C8x1 C8r).period_start = C8x1.period_start :=
  ⟨(C8_amended_update_overwrites_draft_fields C8x1 C8r).2.2.2 "revenue"
     (by simp [colKeys]),
   (C8_amended_update_overwrites_draft_fields C8x1 C8r).2.2.2 "raw_data"
     (by simp [colKeys]),
   (C8_amended_update_overwrites_draft_fields C8x1 C8r).1⟩

/-! ## C6: idempotence of reloading the same data -/

/-- Whether the validator accepts the record. -/
def validB (r : RecD) : Bool :=
  match validate_period_data r with
  | .ok _ => true
  | .error _ => false

/-- Whether a stored row matches the record's identity query. -/
def matchesR (x : FinancialPeriod) (r : RecD) : Bool :=
  match recIdentity r with
  | .ok (ps, pe, sv) => idMatch x ps pe sv
  | .error _ => false

/-- The sublist of records that pass validation and hit this row's identity. -/
def recsFor (x : FinancialPeriod) (rs : List RecD) : List RecD :=
  rs.filter (fun r => validB r && matchesR x r)

/-- Apply a list of drafts' update branches in order. -/
def applyRecsList (x : FinancialPeriod) (L : List RecD) : FinancialPeriod :=
  L.foldl applyRec x

/-- The last value bound to `k` across a list of drafts, if any. -/
def lastVal (L : List RecD) (k : String) : Option PyVal :=
  L.foldl (fun acc r =>
    match recGet r k with
    | some v => some v
    | Option.none => acc) Option.none

/-- Two rows carry the same identity triple under the query's comparison. -/
def sameId (x y : FinancialPeriod) : Prop :=
  x.period_start = y.period_start ∧ x.period_end = y.period_end ∧
    pyEqb x.source y.source = true

/-- No two stored rows share an identity (what the upsert maintains). -/
def wfStore (db : List FinancialPeriod) : Prop :=
  db.Pairwise (fun x y => ¬ sameId x y)

/-- The draft has no binding for the two insert-only columns. -/
def noReserved (r : RecD) : Prop :=
  recGet r "currency" = Option.none ∧ recGet r "raw_data" = Option.none

theorem idMatch_iff {x : FinancialPeriod} {ps pe : Date} {sv : PyVal} :
    idMatch x ps pe sv = true ↔
      x.period_start = ps ∧ x.period_end = pe ∧ pyEqb x.source sv = true := by
  unfold idMatch
  simp [Bool.and_eq_true, beq_iff_eq, and_assoc]

theorem matches_sameId {x y : FinancialPeriod} {ps pe : Date} {sv : PyVal}
    (hx : idMatch x ps pe sv = true) (hy : idMatch y ps pe sv = true) :
    sameId x y := by
  obtain ⟨hx1, hx2, hx3⟩ := idMatch_iff.mp hx
  obtain ⟨hy1, hy2, hy3⟩ := idMatch_iff.mp hy
  exact ⟨hx1.trans hy1.symm, hx2.trans hy2.symm,
    pyEqb_trans _ _ _ hx3 (pyEqb_symm y.source sv ▸ hy3)⟩

theorem applyRecsList_identity (L : List RecD) : ∀ x : FinancialPeriod,
    (applyRecsList x L).period_start = x.period_start ∧
    (applyRecsList x L).period_end = x.period_end ∧
    (applyRecsList x L).source = x.source := by
  induction L with
  | nil => intro x; exact ⟨rfl, rfl, rfl⟩
  | cons r L ih =>
    intro x
    obtain ⟨h1, h2, h3⟩ := ih (applyRec x r)
    obtain ⟨a1, a2, a3⟩ := applyRec_identity r x
    exact ⟨h1.trans a1, h2.trans a2, h3.trans a3⟩

theorem lastVal_acc (k : String) : ∀ (L : List RecD) (acc : Option PyVal),
    L.foldl (fun acc r =>
      match recGet r k with
      | some v => some v
      | Option.none => acc) acc =
    match lastVal L k with
    | some v => some v
    | Option.none => acc := by
  intro L
  induction L with
  | nil => intro acc; rfl
  | cons r L ih =>
    intro acc
    rw [List.foldl_cons]
    rw [ih]
    show _ = match lastVal (r :: L) k with
      | some v => some v
      | Option.none => acc
    have hc : lastVal (r :: L) k = (match lastVal L k with
        | some v => some v
        | Option.none =>
          match recGet r k with
          | some v => some v
          | Option.none => Option.none) := by
      show List.foldl _ _ L = _
      rw [ih]
    rw [hc]
    cases lastVal L k with
    | some v => rfl
    | none =>
      cases recGet r k with
      | some w => rfl
      | none => rfl

theorem applyRecsList_getF (L : List RecD) : ∀ (x : FinancialPeriod) {k : String},
    k ∈ colKeys →
    getF (applyRecsList x L) k = (lastVal L k).getD (getF x k) := by
  induction L with
  | nil => intro x k _; rfl
  | cons r L ih =>
    intro x k hk
    have hstep : applyRecsList x (r :: L) = applyRecsList (applyRec x r) L := rfl
    rw [hstep, ih _ hk, applyRec_getF r x hk]
    have hc : lastVal (r :: L) k = (match lastVal L k with
        | some v => some v
        | Option.none =>
          match recGet r k with
          | some v => some v
          | Option.none => Option.none) := by
      show List.foldl _ _ L = _
      rw [lastVal_acc]
    rw [hc]
    cases lastVal L k with
    | some v => rfl
    | none =>
      cases recGet r k with
      | some w => rfl
      | none => rfl

theorem fp_ext {x y : FinancialPeriod}
    (hps : x.period_start = y.period_start) (hpe : x.period_end = y.period_end)
    (hsv : x.source = y.source)
    (hcols : ∀ k ∈ colKeys, getF x k = getF y k) : x = y := by
  have h1 : x.revenue = y.revenue := hcols "revenue" (by simp [colKeys])
  have h2 : x.cost_of_goods_sold = y.cost_of_goods_sold :=
    hcols "cost_of_goods_sold" (by simp [colKeys])
  have h3 : x.gross_profit = y.gross_profit := hcols "gross_profit" (by simp [colKeys])
  have h4 : x.operating_expenses = y.operating_expenses :=
    hcols "operating_expenses" (by simp [colKeys])
  have h5 : x.operating_profit = y.operating_profit :=
    hcols "operating_profit" (by simp [colKeys])
  have h6 : x.non_operating_revenue = y.non_operating_revenue :=
    hcols "non_operating_revenue" (by simp [colKeys])
  have h7 : x.non_operating_expenses = y.non_operating_expenses :=
    hcols "non_operating_expenses" (by simp [colKeys])
  have h8 : x.net_profit = y.net_profit := hcols "net_profit" (by simp [colKeys])
  have h9 : x.revenue_breakdown = y.revenue_breakdown :=
    hcols "revenue_breakdown" (by simp [colKeys])
  have h10 : x.expense_breakdown = y.expense_breakdown :=
    hcols "expense_breakdown" (by simp [colKeys])
  have h11 : x.currency = y.currency := hcols "currency" (by simp [colKeys])
  have h12 : x.raw_data = y.raw_data := hcols "raw_data" (by simp [colKeys])
  cases x
  cases y
  simp only [FinancialPeriod.mk.injEq]
  exact ⟨hps, hpe, hsv, h1, h2, h3, h4, h5, h6, h7, h8, h9, h10, h11, h12⟩

/-- Replaying a record list a second time changes nothing. -/
theorem applyRecsList_self_absorb (x : FinancialPeriod) (L : List RecD) :
    applyRecsList (applyRecsList x L) L = applyRecsList x L := by
  refine fp_ext ?_ ?_ ?_ ?_
  · exact (applyRecsList_identity L _).1
  · exact (applyRecsList_identity L _).2.1
  · exact (applyRecsList_identity L _).2.2
  · intro k hk
    rw [applyRecsList_getF L _ hk, applyRecsList_getF L _ hk]
    cases lastVal L k with
    | some v => rfl
    | none => rfl

/-- A freshly inserted row already carries its own draft's values, so
re-applying the draft is a no-op (given the draft has no binding for the
insert-only columns). -/
theorem applyRec_mkInsert_absorb {r : RecD} (hres : noReserved r)
    (ps pe : Date) (sv : PyVal) :
    applyRec (mkInsert r ps pe sv) r = mkInsert r ps pe sv := by
  refine fp_ext ?_ ?_ ?_ ?_
  · exact (applyRec_identity r _).1
  · exact (applyRec_identity r _).2.1
  · exact (applyRec_identity r _).2.2
  · intro k hk
    rw [applyRec_getF r _ hk]
    cases hw : recGet r k with
    | none => rfl
    | some w =>
      fin_cases hk
      · show w = (recGet r "revenue").getD (PyVal.num (PyNum.finite 0))
        rw [hw]
        rfl
      · show w = (recGet r "cost_of_goods_sold").getD (PyVal.num (PyNum.finite 0))
        rw [hw]
        rfl
      · show w = (recGet r "gross_profit").getD (PyVal.num (PyNum.finite 0))
        rw [hw]
        rfl
      · show w = (recGet r "operating_expenses").getD (PyVal.num (PyNum.finite 0))
        rw [hw]
        rfl
      · show w = (recGet r "operating_profit").getD (PyVal.num (PyNum.finite 0))
        rw [hw]
        rfl
      · show w = (recGet r "non_operating_revenue").getD (PyVal.num (PyNum.finite 0))
        rw [hw]
        rfl
      · show w = (recGet r "non_operating_expenses").getD (PyVal.num (PyNum.finite 0))
        rw [hw]
        rfl
      · show w = (recGet r "net_profit").getD (PyVal.num (PyNum.finite 0))
        rw [hw]
        rfl
      · show w = (recGet r "revenue_breakdown").getD PyVal.none
        rw [hw]
        rfl
      · show w = (recGet r "expense_breakdown").getD PyVal.none
        rw [hw]
        rfl
      · rw [hres.1] at hw
        exact Option.noConfusion hw
      · rw [hres.2] at hw
        exact Option.noConfusion hw

/-- Re-applying an already absorbed record in front of a replay is a no-op. -/
theorem applyRecsList_absorb_front {m : FinancialPeriod} {r : RecD}
    (habs : applyRec m r = m) (L : List RecD) :
    applyRecsList (applyRec (applyRecsList m L) r) L = applyRecsList m L := by
  refine fp_ext ?_ ?_ ?_ ?_
  · exact (applyRecsList_identity L _).1.trans (applyRec_identity r _).1
  · exact (applyRecsList_identity L _).2.1.trans (applyRec_identity r _).2.1
  · exact (applyRecsList_identity L _).2.2.trans (applyRec_identity r _).2.2
  · intro k hk
    rw [applyRecsList_getF L _ hk, applyRec_getF r _ hk, applyRecsList_getF L _ hk]
    cases lastVal L k with
    | some v => rfl
    | none =>
      show (recGet r k).getD (getF m k) = getF m k
      have hcong : getF (applyRec m r) k = getF m k := by rw [habs]
      rw [applyRec_getF r m hk] at hcong
      exact hcong

theorem matchesR_congr {x y : FinancialPeriod}
    (h1 : x.period_start = y.period_start) (h2 : x.period_end = y.period_end)
    (h3 : x.source = y.source) (r : RecD) : matchesR x r = matchesR y r := by
  unfold matchesR
  cases recIdentity r with
  | error e => rfl
  | ok t =>
    obtain ⟨ps, pe, sv⟩ := t
    simp only [idMatch, h1, h2, h3]

theorem recsFor_congr {x y : FinancialPeriod}
    (h1 : x.period_start = y.period_start) (h2 : x.period_end = y.period_end)
    (h3 : x.source = y.source) (rs : List RecD) : recsFor x rs = recsFor y rs := by
  unfold recsFor
  refine List.filter_congr ?_
  intro r _
  rw [matchesR_congr h1 h2 h3 r]

theorem matchesR_both_sameId {x y : FinancialPeriod} {r : RecD}
    (hx : matchesR x r = true) (hy : matchesR y r = true) : sameId x y := by
  unfold matchesR at hx hy
  cases hid : recIdentity r with
  | error e =>
    rw [hid] at hx
    exact Bool.noConfusion hx
  | ok t =>
    obtain ⟨ps, pe, sv⟩ := t
    rw [hid] at hx hy
    exact matches_sameId hx hy

theorem ite_applyRec_identity (r : RecD) (ps pe : Date) (sv : PyVal)
    (x : FinancialPeriod) :
    ((if idMatch x ps pe sv then applyRec x r else x).period_start = x.period_start) ∧
    ((if idMatch x ps pe sv then applyRec x r else x).period_end = x.period_end) ∧
    ((if idMatch x ps pe sv then applyRec x r else x).source = x.source) := by
  by_cases hm : idMatch x ps pe sv = true
  · rw [if_pos hm]
    exact applyRec_identity r x
  · rw [if_neg hm]
    exact ⟨rfl, rfl, rfl⟩

/-- Under a well-formed store the first identity match is the only one, so the
update rewrites exactly the matching row, pointwise over the store. -/
theorem updFirst_map {db : List FinancialPeriod} (hwf : wfStore db)
    (ps pe : Date) (sv : PyVal) (r : RecD) :
    updFirst db ps pe sv r
      = db.map (fun x => if idMatch x ps pe sv then applyRec x r else x) := by
  induction db with
  | nil => rfl
  | cons x xs ih =>
    obtain ⟨hx, hwf'⟩ := List.pairwise_cons.mp hwf
    by_cases hm : idMatch x ps pe sv = true
    · have hxs : ∀ y ∈ xs, idMatch y ps pe sv = false := by
        intro y hy
        cases hb : idMatch y ps pe sv with
        | false => rfl
        | true => exact absurd (matches_sameId hm hb) (hx y hy)
      have hmapid : xs.map (fun z => if idMatch z ps pe sv then applyRec z r else z)
          = xs := by
        have hpt : ∀ z ∈ xs,
            (if idMatch z ps pe sv then applyRec z r else z) = id z := by
          intro z hz
          rw [hxs z hz]
          exact if_neg Bool.false_ne_true
        rw [List.map_congr_left hpt, List.map_id]
      show (if idMatch x ps pe sv then applyRec x r :: xs else x :: updFirst xs ps pe sv r)
          = _
      rw [if_pos hm, List.map_cons, if_pos hm, hmapid]
    · show (if idMatch x ps pe sv then applyRec x r :: xs else x :: updFirst xs ps pe sv r)
          = _
      rw [if_neg hm, List.map_cons, if_neg hm, ih hwf']

theorem wfStore_map_pres {db : List FinancialPeriod} (hwf : wfStore db)
    {f : FinancialPeriod → FinancialPeriod}
    (hf : ∀ x, (f x).period_start = x.period_start ∧
      (f x).period_end = x.period_end ∧ (f x).source = x.source) :
    wfStore (db.map f) := by
  rw [wfStore, List.pairwise_map]
  refine hwf.imp ?_
  intro a b hab hsame
  apply hab
  obtain ⟨s1, s2, s3⟩ := hsame
  rw [(hf a).1, (hf b).1] at s1
  rw [(hf a).2.1, (hf b).2.1] at s2
  rw [(hf a).2.2, (hf b).2.2] at s3
  exact ⟨s1, s2, s3⟩

theorem wfStore_append_insert {db : List FinancialPeriod} (hwf : wfStore db)
    {ps pe : Date} {sv : PyVal} {r : RecD}
    (hany : db.any (fun x => idMatch x ps pe sv) = false) :
    wfStore (db ++ [mkInsert r ps pe sv]) := by
  rw [wfStore, List.pairwise_append]
  refine ⟨hwf, List.pairwise_singleton _ _, ?_⟩
  intro x hx m hm hsame
  rw [List.mem_singleton.mp hm] at hsame
  obtain ⟨s1, s2, s3⟩ := hsame
  have hmatch : idMatch x ps pe sv = true := by
    rw [idMatch_iff]
    exact ⟨s1, s2, s3⟩
  have hx2 : (fun y => idMatch y ps pe sv) x = true := hmatch
  have hga : db.any (fun y => idMatch y ps pe sv) = true :=
    List.any_eq_true.mpr ⟨x, hx, hx2⟩
  rw [hany] at hga
  exact Bool.noConfusion hga

/-- A record the validator accepts resolves its identity triple: both dates
re-parse with `strptime` and the `source` value is one of the two literal
source strings. -/
theorem valid_shape {r : RecD} (h : validB r = true) :
    ∃ ps pe, recIdentity r = .ok (ps, pe, recGetV r "source") ∧
      (recGetV r "source" = .str "quickbooks" ∨
       recGetV r "source" = .str "rootfi") := by
  unfold validB at h
  cases hv : validate_period_data r with
  | error e =>
    rw [hv] at h
    exact Bool.noConfusion h
  | ok b =>
    clear h
    unfold validate_period_data at hv
    obtain ⟨u1, hreq, hv⟩ := bind_ok_inv hv
    obtain ⟨u2, hdc, hv⟩ := bind_ok_inv hv
    replace hv : (if (!(pyEqb (recGetV r "source") (.str "quickbooks")
          || pyEqb (recGetV r "source") (.str "rootfi"))) = true then
        (.error (.dataValidationError "Invalid source") : Except PyError Bool)
      else do
        checkNumeric r numericFields
        pure true) = .ok b := hv
    have hsrc : (pyEqb (recGetV r "source") (.str "quickbooks")
        || pyEqb (recGetV r "source") (.str "rootfi")) = true := by
      cases hb : (pyEqb (recGetV r "source") (.str "quickbooks")
          || pyEqb (recGetV r "source") (.str "rootfi")) with
      | true => rfl
      | false =>
        rw [hb] at hv
        exact Except.noConfusion hv
    have hd : ∃ u : Unit, dateCheck r = Except.ok u := by
      cases hd0 : dateCheck r with
      | ok u => exact ⟨u, rfl⟩
      | error e =>
        rw [hd0] at hdc
        cases e <;> exact Except.noConfusion hdc
    obtain ⟨u, hd⟩ := hd
    unfold dateCheck at hd
    obtain ⟨sd, hsd, hd⟩ := bind_ok_inv hd
    obtain ⟨ed, hed, hd⟩ := bind_ok_inv hd
    replace hreq : (if recHas r "period_start" then
        checkRequired r ["period_end", "source"]
      else .error (.dataValidationError
        ("Missing required field: " ++ "period_start"))) = .ok u1 := hreq
    have h1 : recHas r "period_start" = true := by
      cases hb : recHas r "period_start" with
      | true => rfl
      | false =>
        rw [hb, if_neg Bool.false_ne_true] at hreq
        exact Except.noConfusion hreq
    rw [h1, if_pos rfl] at hreq
    replace hreq : (if recHas r "period_end" then
        checkRequired r ["source"]
      else .error (.dataValidationError
        ("Missing required field: " ++ "period_end"))) = .ok u1 := hreq
    have h2 : recHas r "period_end" = true := by
      cases hb : recHas r "period_end" with
      | true => rfl
      | false =>
        rw [hb, if_neg Bool.false_ne_true] at hreq
        exact Except.noConfusion hreq
    rw [h2, if_pos rfl] at hreq
    replace hreq : (if recHas r "source" then
        (.ok () : Except PyError Unit)
      else .error (.dataValidationError
        ("Missing required field: " ++ "source"))) = .ok u1 := hreq
    have h3 : recHas r "source" = true := by
      cases hb : recHas r "source" with
      | true => rfl
      | false =>
        rw [hb, if_neg Bool.false_ne_true] at hreq
        exact Except.noConfusion hreq
    obtain ⟨v1, hg1⟩ : ∃ v, recGet r "period_start" = some v := by
      cases hg : recGet r "period_start" with
      | some v => exact ⟨v, rfl⟩
      | none =>
        unfold recHas at h1
        rw [hg] at h1
        exact Bool.noConfusion h1
    obtain ⟨v2, hg2⟩ : ∃ v, recGet r "period_end" = some v := by
      cases hg : recGet r "period_end" with
      | some v => exact ⟨v, rfl⟩
      | none =>
        unfold recHas at h2
        rw [hg] at h2
        exact Bool.noConfusion h2
    obtain ⟨v3, hg3⟩ : ∃ v, recGet r "source" = some v := by
      cases hg : recGet r "source" with
      | some v => exact ⟨v, rfl⟩
      | none =>
        unfold recHas at h3
        rw [hg] at h3
        exact Bool.noConfusion h3
    have hv1 : recGetV r "period_start" = v1 := by
      unfold recGetV
      rw [hg1]
      rfl
    have hv2 : recGetV r "period_end" = v2 := by
      unfold recGetV
      rw [hg2]
      rfl
    have hv3 : recGetV r "source" = v3 := by
      unfold recGetV
      rw [hg3]
      rfl
    rw [hv1] at hsd
    rw [hv2] at hed
    have e1 : recSubscr r "period_start" = .ok v1 := by
      unfold recSubscr
      rw [hg1]
    have e3 : recSubscr r "period_end" = .ok v2 := by
      unfold recSubscr
      rw [hg2]
    have e5 : recSubscr r "source" = .ok v3 := by
      unfold recSubscr
      rw [hg3]
    refine ⟨sd, ed, ?_, ?_⟩
    · unfold recIdentity
      rw [e1]
      rw [except_bind_ok]
      rw [hsd]
      rw [except_bind_ok]
      rw [e3]
      rw [except_bind_ok]
      rw [hed]
      rw [except_bind_ok]
      rw [e5]
      rw [except_bind_ok]
      rw [hv3]
      rfl
    · rw [hv3]
      rw [hv3] at hsrc
      rw [Bool.or_eq_true] at hsrc
      rcases hsrc with ha | hb
      · exact Or.inl (pyEqb_str_iff.mp ha)
      · exact Or.inr (pyEqb_str_iff.mp hb)

theorem matchesR_of_id {r : RecD} {ps pe : Date} {sv : PyVal}
    (hid : recIdentity r = .ok (ps, pe, sv)) (x : FinancialPeriod) :
    matchesR x r = idMatch x ps pe sv := by
  unfold matchesR
  rw [hid]

theorem recsFor_cons_pos {x : FinancialPeriod} {r : RecD} {rs : List RecD}
    (hv : validB r = true) (hm : matchesR x r = true) :
    recsFor x (r :: rs) = r :: recsFor x rs := by
  unfold recsFor
  rw [List.filter_cons, hv, hm]
  rfl

theorem recsFor_cons_neg {x : FinancialPeriod} {r : RecD} {rs : List RecD}
    (h : (validB r && matchesR x r) = false) :
    recsFor x (r :: rs) = recsFor x rs := by
  unfold recsFor
  rw [List.filter_cons, h]
  rfl

theorem load_periods_cons (db : List FinancialPeriod) (c : Nat) (r : RecD)
    (rs : List RecD) :
    load_periods db c (r :: rs) =
      match validate_period_data r with
      | .error _ => load_periods db c rs
      | .ok _ =>
        match recIdentity r with
        | .error e => .error e
        | .ok (ps, pe, srcv) =>
          if (db.any (fun x => idMatch x ps pe srcv)) then
            load_periods (updFirst db ps pe srcv r) c rs
          else
            load_periods (db ++ [mkInsert r ps pe srcv]) (c + 1) rs := rfl

/-- When every valid record's identity is already present in a well-formed
store, a load performs only updates: it inserts nothing, returns the count
unchanged, and rewrites each row by replaying its own matching records. -/
theorem load_run_update_only :
    ∀ (rs : List RecD) (db : List FinancialPeriod) (c : Nat),
      wfStore db →
      (∀ r ∈ rs, validB r = true → db.any (fun x => matchesR x r) = true) →
      load_periods db c rs
        = .ok (db.map (fun x => applyRecsList x (recsFor x rs)), c) := by
  intro rs
  induction rs with
  | nil =>
    intro db c _ _
    have hmap : db.map (fun x => applyRecsList x (recsFor x ([] : List RecD))) = db := by
      have hpt : ∀ x ∈ db,
          applyRecsList x (recsFor x ([] : List RecD)) = id x := fun x _ => rfl
      rw [List.map_congr_left hpt, List.map_id]
    rw [hmap]
    rfl
  | cons r rs' ih =>
    intro db c hwf hcont
    cases hvb : validB r with
    | false =>
      obtain ⟨e, hv⟩ : ∃ e, validate_period_data r = .error e := by
        unfold validB at hvb
        cases hv0 : validate_period_data r with
        | ok b => rw [hv0] at hvb; exact Bool.noConfusion hvb
        | error e => exact ⟨e, rfl⟩
      rw [load_periods_cons, hv]
      rw [ih db c hwf (fun r' hr' hv' => hcont r' (List.mem_cons_of_mem _ hr') hv')]
      have hmapc : ∀ x ∈ db, applyRecsList x (recsFor x rs')
          = applyRecsList x (recsFor x (r :: rs')) := by
        intro x _
        rw [recsFor_cons_neg (by rw [hvb]; rfl)]
      rw [List.map_congr_left hmapc]
    | true =>
      obtain ⟨b, hv⟩ : ∃ b, validate_period_data r = .ok b := by
        unfold validB at hvb
        cases hv0 : validate_period_data r with
        | ok b => exact ⟨b, rfl⟩
        | error e => rw [hv0] at hvb; exact Bool.noConfusion hvb
      obtain ⟨ps, pe, hid, _⟩ := valid_shape hvb
      have hany : db.any (fun x => idMatch x ps pe (recGetV r "source")) = true := by
        have h0 := hcont r (List.mem_cons_self _ _) hvb
        have hfun : (fun x => matchesR x r)
            = (fun x => idMatch x ps pe (recGetV r "source")) :=
          funext fun x => matchesR_of_id hid x
        rw [hfun] at h0
        exact h0
      have hred : load_periods db c (r :: rs')
          = load_periods (updFirst db ps pe (recGetV r "source") r) c rs' := by
        rw [load_periods_cons, hv, hid]
        show (if (db.any fun x => idMatch x ps pe (recGetV r "source")) = true then
            load_periods (updFirst db ps pe (recGetV r "source") r) c rs'
          else
            load_periods (db ++ [mkInsert r ps pe (recGetV r "source")]) (c + 1) rs')
          = load_periods (updFirst db ps pe (recGetV r "source") r) c rs'
        rw [if_pos hany]
      rw [hred, updFirst_map hwf]
      have hwf' : wfStore (db.map (fun x =>
          if idMatch x ps pe (recGetV r "source") then applyRec x r else x)) :=
        wfStore_map_pres hwf (ite_applyRec_identity r ps pe (recGetV r "source"))
      have hcont' : ∀ r' ∈ rs', validB r' = true →
          (db.map (fun x =>
            if idMatch x ps pe (recGetV r "source") then applyRec x r else x)).any
            (fun x => matchesR x r') = true := by
        intro r' hr' hv'
        rw [List.any_map]
        have hfun : ((fun x => matchesR x r') ∘ (fun x =>
            if idMatch x ps pe (recGetV r "source") then applyRec x r else x))
            = (fun x => matchesR x r') := by
          refine funext fun x => ?_
          obtain ⟨e1, e2, e3⟩ := ite_applyRec_identity r ps pe (recGetV r "source") x
          exact matchesR_congr e1 e2 e3 r'
        rw [hfun]
        exact hcont r' (List.mem_cons_of_mem _ hr') hv'
      rw [ih _ c hwf' hcont', List.map_map]
      have hmapc : ∀ x ∈ db,
          ((fun y => applyRecsList y (recsFor y rs')) ∘ (fun x =>
            if idMatch x ps pe (recGetV r "source") then applyRec x r else x)) x
          = applyRecsList x (recsFor x (r :: rs')) := by
        intro x _
        by_cases hm : idMatch x ps pe (recGetV r "source") = true
        · have hmr : matchesR x r = true := by
            rw [matchesR_of_id hid]
            exact hm
          show applyRecsList (if idMatch x ps pe (recGetV r "source")
            then applyRec x r else x) (recsFor (if idMatch x ps pe (recGetV r "source")
            then applyRec x r else x) rs') = _
          rw [if_pos hm]
          obtain ⟨e1, e2, e3⟩ := applyRec_identity r x
          rw [recsFor_congr e1 e2 e3 rs']
          rw [recsFor_cons_pos hvb hmr]
          rfl
        · have hmr : matchesR x r = false := by
            rw [matchesR_of_id hid]
            cases hb : idMatch x ps pe (recGetV r "source") with
            | false => rfl
            | true => exact absurd hb hm
          show applyRecsList (if idMatch x ps pe (recGetV r "source")
            then applyRec x r else x) (recsFor (if idMatch x ps pe (recGetV r "source")
            then applyRec x r else x) rs') = _
          rw [if_neg hm]
          rw [recsFor_cons_neg (by rw [hmr, Bool.and_false])]
      rw [List.map_congr_left hmapc]

theorem applyRecsList_step_comp {r : RecD} {ps pe : Date} {sv : PyVal}
    (hvb : validB r = true) (hid : recIdentity r = .ok (ps, pe, sv))
    (rs' : List RecD) (x : FinancialPeriod) :
    applyRecsList (if idMatch x ps pe sv then applyRec x r else x)
      (recsFor (if idMatch x ps pe sv then applyRec x r else x) rs')
    = applyRecsList x (recsFor x (r :: rs')) := by
  by_cases hm : idMatch x ps pe sv = true
  · have hmr : matchesR x r = true := by
      rw [matchesR_of_id hid]
      exact hm
    rw [if_pos hm]
    obtain ⟨e1, e2, e3⟩ := applyRec_identity r x
    rw [recsFor_congr e1 e2 e3 rs']
    rw [recsFor_cons_pos hvb hmr]
    rfl
  · have hmr : matchesR x r = false := by
      rw [matchesR_of_id hid]
      cases hb : idMatch x ps pe sv with
      | false => rfl
      | true => exact absurd hb hm
    rw [if_neg hm]
    rw [recsFor_cons_neg (by rw [hmr, Bool.and_false])]

/-- What a load leaves behind: the surviving rows are the old rows with their
matching records replayed, new rows are appended, every valid record's
identity is present afterwards, the store stays well-formed, and every
appended row has already absorbed its own records. -/
theorem load_hist :
    ∀ (rs : List RecD) (db : List FinancialPeriod) (c : Nat)
      (db1 : List FinancialPeriod) (c1 : Nat),
      wfStore db →
      (∀ r ∈ rs, noReserved r) →
      load_periods db c rs = .ok (db1, c1) →
      ∃ tail : List FinancialPeriod,
        db1 = db.map (fun x => applyRecsList x (recsFor x rs)) ++ tail ∧
        wfStore db1 ∧
        (∀ r ∈ rs, validB r = true →
          db1.any (fun x => matchesR x r) = true) ∧
        (∀ z ∈ tail, applyRecsList z (recsFor z rs) = z) := by
  intro rs
  induction rs with
  | nil =>
    intro db c db1 c1 hwf _ h
    replace h : Except.ok (db, c) = Except.ok (db1, c1) := h
    injection h with h
    injection h with h hc
    subst h
    refine ⟨[], ?_, hwf, ?_, ?_⟩
    · have hpt : ∀ x ∈ db,
          applyRecsList x (recsFor x ([] : List RecD)) = id x := fun x _ => rfl
      rw [List.map_congr_left hpt, List.map_id, List.append_nil]
    · intro r hr
      cases hr
    · intro z hz
      cases hz
  | cons r rs' ih =>
    intro db c db1 c1 hwf hres h
    rw [load_periods_cons] at h
    cases hvb : validB r with
    | false =>
      obtain ⟨e, hv⟩ : ∃ e, validate_period_data r = .error e := by
        unfold validB at hvb
        cases hv0 : validate_period_data r with
        | ok b => rw [hv0] at hvb; exact Bool.noConfusion hvb
        | error e => exact ⟨e, rfl⟩
      rw [hv] at h
      replace h : load_periods db c rs' = .ok (db1, c1) := h
      obtain ⟨tail, hdec, hwf1, hcont1, habs1⟩ :=
        ih db c db1 c1 hwf (fun r' hr' => hres r' (List.mem_cons_of_mem _ hr')) h
      refine ⟨tail, ?_, hwf1, ?_, ?_⟩
      · rw [hdec]
        have hpt : ∀ x ∈ db, applyRecsList x (recsFor x rs')
            = applyRecsList x (recsFor x (r :: rs')) := by
          intro x _
          rw [recsFor_cons_neg (by rw [hvb]; rfl)]
        rw [List.map_congr_left hpt]
      · intro r' hr' hv'
        rcases List.mem_cons.mp hr' with hr' | hr'
        · rw [hr', hvb] at hv'
          exact Bool.noConfusion hv'
        · exact hcont1 r' hr' hv'
      · intro z hz
        rw [recsFor_cons_neg (by rw [hvb]; rfl)]
        exact habs1 z hz
    | true =>
      obtain ⟨b, hv⟩ : ∃ b, validate_period_data r = .ok b := by
        unfold validB at hvb
        cases hv0 : validate_period_data r with
        | ok b => exact ⟨b, rfl⟩
        | error e => rw [hv0] at hvb; exact Bool.noConfusion hvb
      obtain ⟨ps, pe, hid, hsh⟩ := valid_shape hvb
      rw [hv, hid] at h
      replace h : (if (db.any fun x => idMatch x ps pe (recGetV r "source")) = true then
          load_periods (updFirst db ps pe (recGetV r "source") r) c rs'
        else
          load_periods (db ++ [mkInsert r ps pe (recGetV r "source")]) (c + 1) rs')
          = .ok (db1, c1) := h
      cases hany : db.any (fun x => idMatch x ps pe (recGetV r "source")) with
      | true =>
        rw [if_pos hany] at h
        rw [updFirst_map hwf] at h
        have hwf' := wfStore_map_pres hwf
          (ite_applyRec_identity r ps pe (recGetV r "source"))
        obtain ⟨tail, hdec, hwf1, hcont1, habs1⟩ :=
          ih _ c db1 c1 hwf' (fun r' hr' => hres r' (List.mem_cons_of_mem _ hr')) h
        have hmain : db1 = db.map
            (fun x => applyRecsList x (recsFor x (r :: rs'))) ++ tail := by
          rw [hdec, List.map_map]
          have hpt : ∀ x ∈ db,
              ((fun y => applyRecsList y (recsFor y rs')) ∘ (fun x =>
                if idMatch x ps pe (recGetV r "source") then applyRec x r else x)) x
              = applyRecsList x (recsFor x (r :: rs')) :=
            fun x _ => applyRecsList_step_comp hvb hid rs' x
          rw [List.map_congr_left hpt]
        refine ⟨tail, hmain, hwf1, ?_, ?_⟩
        · intro r' hr' hv'
          rcases List.mem_cons.mp hr' with hr' | hr'
          · rw [hr']
            obtain ⟨x0, hx0, hmx0⟩ :
                ∃ x ∈ db, idMatch x ps pe (recGetV r "source") = true := by
              have := List.any_eq_true.mp hany
              exact this
            have hz0 : applyRecsList x0 (recsFor x0 (r :: rs')) ∈ db1 := by
              rw [hmain]
              exact List.mem_append_left _
                (List.mem_map_of_mem _ hx0)
            refine List.any_eq_true.mpr
              ⟨applyRecsList x0 (recsFor x0 (r :: rs')), hz0, ?_⟩
            show matchesR (applyRecsList x0 (recsFor x0 (r :: rs'))) r = true
            obtain ⟨e1, e2, e3⟩ := applyRecsList_identity (recsFor x0 (r :: rs')) x0
            rw [matchesR_congr e1 e2 e3 r]
            rw [matchesR_of_id hid]
            exact hmx0
          · exact hcont1 r' hr' hv'
        · intro z hz
          have hnm : matchesR z r = false := by
            cases hb : matchesR z r with
            | false => rfl
            | true =>
              exfalso
              obtain ⟨x0, hx0, hmx0⟩ :
                  ∃ x ∈ db, idMatch x ps pe (recGetV r "source") = true :=
                List.any_eq_true.mp hany
              have hz0mem : applyRecsList x0 (recsFor x0 (r :: rs'))
                  ∈ db.map (fun x => applyRecsList x (recsFor x (r :: rs'))) :=
                List.mem_map_of_mem _ hx0
              have hz0m : matchesR (applyRecsList x0 (recsFor x0 (r :: rs'))) r
                  = true := by
                obtain ⟨e1, e2, e3⟩ :=
                  applyRecsList_identity (recsFor x0 (r :: rs')) x0
                rw [matchesR_congr e1 e2 e3 r, matchesR_of_id hid]
                exact hmx0
              have hwfapp : wfStore (db.map
                  (fun x => applyRecsList x (recsFor x (r :: rs'))) ++ tail) := by
                rw [← hmain]
                exact hwf1
              have hcross := (List.pairwise_append.mp hwfapp).2.2
              exact hcross _ hz0mem z hz (matchesR_both_sameId hz0m hb)
          rw [recsFor_cons_neg (by rw [hnm, Bool.and_false])]
          exact habs1 z hz
      | false =>
        rw [hany, if_neg Bool.false_ne_true] at h
        have hwfm : wfStore (db ++ [mkInsert r ps pe (recGetV r "source")]) :=
          wfStore_append_insert hwf hany
        obtain ⟨tail', hdec, hwf1, hcont1, habs1⟩ :=
          ih _ (c + 1) db1 c1 hwfm
            (fun r' hr' => hres r' (List.mem_cons_of_mem _ hr')) h
        have hnomatch : ∀ x ∈ db, idMatch x ps pe (recGetV r "source") = false := by
          intro x hx
          cases hb : idMatch x ps pe (recGetV r "source") with
          | false => rfl
          | true =>
            have hx2 : (fun y => idMatch y ps pe (recGetV r "source")) x = true := hb
            have hga : (db.any fun y => idMatch y ps pe (recGetV r "source")) = true :=
              List.any_eq_true.mpr ⟨x, hx, hx2⟩
            rw [hany] at hga
            exact Bool.noConfusion hga
        have hm_match : matchesR (mkInsert r ps pe (recGetV r "source")) r = true := by
          rw [matchesR_of_id hid]
          rw [idMatch_iff]
          refine ⟨rfl, rfl, ?_⟩
          show pyEqb (recGetV r "source") (recGetV r "source") = true
          rcases hsh with hq | hq <;> rw [hq] <;> rfl
        have hmabs : applyRec (mkInsert r ps pe (recGetV r "source")) r
            = mkInsert r ps pe (recGetV r "source") :=
          applyRec_mkInsert_absorb (hres r (List.mem_cons_self _ _)) ps pe _
        have hgm_fields := applyRecsList_identity
          (recsFor (mkInsert r ps pe (recGetV r "source")) rs')
          (mkInsert r ps pe (recGetV r "source"))
        have hmain : db1 = db.map
            (fun x => applyRecsList x (recsFor x (r :: rs'))) ++
            (applyRecsList (mkInsert r ps pe (recGetV r "source"))
              (recsFor (mkInsert r ps pe (recGetV r "source")) rs') :: tail') := by
          rw [hdec, List.map_append]
          have hpt : ∀ x ∈ db, applyRecsList x (recsFor x rs')
              = applyRecsList x (recsFor x (r :: rs')) := by
            intro x hx
            have hmr : matchesR x r = false := by
              rw [matchesR_of_id hid]
              exact hnomatch x hx
            rw [recsFor_cons_neg (by rw [hmr, Bool.and_false])]
          rw [List.map_congr_left hpt, List.append_assoc]
          rfl
        refine ⟨_, hmain, hwf1, ?_, ?_⟩
        · intro r' hr' hv'
          rcases List.mem_cons.mp hr' with hr' | hr'
          · rw [hr']
            have hzmem : applyRecsList (mkInsert r ps pe (recGetV r "source"))
                (recsFor (mkInsert r ps pe (recGetV r "source")) rs') ∈ db1 := by
              rw [hmain]
              exact List.mem_append_right _ (List.mem_cons_self _ _)
            refine List.any_eq_true.mpr ⟨_, hzmem, ?_⟩
            show matchesR (applyRecsList (mkInsert r ps pe (recGetV r "source"))
              (recsFor (mkInsert r ps pe (recGetV r "source")) rs')) r = true
            rw [matchesR_congr hgm_fields.1 hgm_fields.2.1 hgm_fields.2.2 r]
            exact hm_match
          · exact hcont1 r' hr' hv'
        · intro z hz
          rcases List.mem_cons.mp hz with hz | hz
          · subst hz
            rw [recsFor_congr hgm_fields.1 hgm_fields.2.1 hgm_fields.2.2 (r :: rs')]
            rw [recsFor_cons_pos hvb hm_match]
            show applyRecsList (applyRec (applyRecsList _ _) r) _ = _
            exact applyRecsList_absorb_front hmabs _
          · have hnm : matchesR z r = false := by
              cases hb : matchesR z r with
              | false => rfl
              | true =>
                exfalso
                have hz0m : matchesR (applyRecsList
                    (mkInsert r ps pe (recGetV r "source"))
                    (recsFor (mkInsert r ps pe (recGetV r "source")) rs')) r
                    = true := by
                  rw [matchesR_congr hgm_fields.1 hgm_fields.2.1 hgm_fields.2.2 r]
                  exact hm_match
                have hwfapp : wfStore (db.map
                    (fun x => applyRecsList x (recsFor x (r :: rs'))) ++
                    (applyRecsList (mkInsert r ps pe (recGetV r "source"))
                      (recsFor (mkInsert r ps pe (recGetV r "source")) rs')
                      :: tail')) := by
                  rw [← hmain]
                  exact hwf1
                have hsuffix := (List.pairwise_append.mp hwfapp).2.1
                have hcons := List.pairwise_cons.mp hsuffix
                exact hcons.1 z hz (matchesR_both_sameId hz0m hb)
            rw [recsFor_cons_neg (by rw [hnm, Bool.and_false])]
            exact habs1 z hz

/-- C6: reloading the same record batch is idempotent.  Starting from a store
with pairwise-distinct identities, a successful load followed by a second
load of the same batch leaves the store exactly as after the first load and
reports `0` new records: every valid record now finds its identity present,
takes the update branch (which never increments the count), and overwriting
a row with the values it already carries changes nothing.  The draft batch
is only required not to bind the two insert-only columns (`currency`,
`raw_data`), which no parser draft ever does. -/
theorem C6_double_load_idempotent {db db1 : List FinancialPeriod}
    {rs : List RecD} {c1 : Nat}
    (hwf : wfStore db) (hres : ∀ r ∈ rs, noReserved r)
    (h1 : load_periods db 0 rs = .ok (db1, c1)) :
    load_periods db1 0 rs = .ok (db1, 0) := by
  obtain ⟨tail, hdec, hwf1, hcont1, habs1⟩ := load_hist rs db 0 db1 c1 hwf hres h1
  rw [load_run_update_only rs db1 0 hwf1 hcont1]
  have hpt : ∀ z ∈ db1, applyRecsList z (recsFor z rs) = id z := by
    intro z hz
    show applyRecsList z (recsFor z rs) = z
    rw [hdec] at hz
    rcases List.mem_append.mp hz with hz | hz
    · obtain ⟨x, hx, hxz⟩ := List.mem_map.mp hz
      subst hxz
      obtain ⟨e1, e2, e3⟩ := applyRecsList_identity (recsFor x rs) x
      rw [recsFor_congr e1 e2 e3 rs]
      exact applyRecsList_self_absorb x (recsFor x rs)
    · exact habs1 z hz
  rw [List.map_congr_left hpt, List.map_id]

def C6r : RecD :=
  [("period_start", .str "2024-01-01"), ("period_end", .str "2024-01-31"),
   ("source", .str "quickbooks"), ("revenue", .num (.finite 5))]

theorem C6_double_load_idempotent_witness :
    load_periods [mkInsert C6r ⟨2024, 1, 1⟩ ⟨2024, 1, 31⟩ (.str "quickbooks")] 0 [C6r]
      = .ok ([mkInsert C6r ⟨2024, 1, 1⟩ ⟨2024, 1, 31⟩ (.str "quickbooks")], 0) :=
  @C6_double_load_idempotent []
    [mkInsert C6r ⟨2024, 1, 1⟩ ⟨2024, 1, 31⟩ (.str "quickbooks")] [C6r] 1
    List.Pairwise.nil
    (by
      intro r hr
      rw [List.mem_singleton.mp hr]
      exact ⟨rfl, rfl⟩)
    (by rfl)
